import Mathlib

/-!
Namespace write-permission registry of DNA: a shallow embedding of the two Go source files
`core/store/ChainStore/stateupdater.go` and `core/transaction/payload/StateUpdater.go`.

Conventions of the embedding

* A Go `map[K]V` is a `GoMap K V`: a list of key/value entries whose keys are pairwise
  distinct.  The order of the list stands for the order in which `range` visits the map,
  which Go leaves unspecified; every theorem is stated for all lists, hence for every
  iteration order.
* A method with a pointer receiver that reads or writes the receiver's fields is a function
  from the receiver's state to its result and the receiver's state afterwards.
* An `io.Reader` is the list of bytes that remain to be read; a decoder returns the bytes
  left after it.  What a collaborator writes to an `io.Writer` is the list of bytes it
  appended, with the error it returned.
* The locks (`sync.RWMutex`) are not modelled: calls are executed one at a time.
* Pointers are never nil in the embedding.
* A Go `string` is a Lean `String`; a `[]byte` is a list of bytes.
* The collaborators outside the two files (the identity codec and the primitive codec) are
  parameters, gathered in `Collab`; `specCollab` is the instance that the specification
  describes, used at concrete inputs.
-/

/-! ## Go maps -/

/-- Entries of a map as `range` visits them, with pairwise distinct keys. -/
structure GoMap (κ : Type) (ν : Type) where
  entries : List (κ × ν)
  nodupKeys : (entries.map Prod.fst).Nodup

namespace GoMap

variable {κ ν : Type}

/-- Lookup in a list of entries (first match). -/
def getL [DecidableEq κ] (k : κ) : List (κ × ν) → Option ν
  | [] => none
  | e :: t => if e.1 = k then some e.2 else getL k t

/-- Assignment `m[k] = v` on a list of entries: overwrite in place, or add a new entry. -/
def setL [DecidableEq κ] (k : κ) (v : ν) : List (κ × ν) → List (κ × ν)
  | [] => [(k, v)]
  | e :: t => if e.1 = k then (k, v) :: t else e :: setL k v t

/-- Removal `delete(m, k)` on a list of entries. -/
def delL [DecidableEq κ] (k : κ) (l : List (κ × ν)) : List (κ × ν) :=
  l.filter (fun e => decide (e.1 ≠ k))

theorem keys_setL [DecidableEq κ] (k : κ) (v : ν) (l : List (κ × ν)) :
    (setL k v l).map Prod.fst =
      if k ∈ l.map Prod.fst then l.map Prod.fst else l.map Prod.fst ++ [k] := by
  induction l with
  | nil => simp [setL]
  | cons e t ih =>
    by_cases h : e.1 = k
    · simp [setL, h]
    · have h' : ¬ k = e.1 := fun h2 => h h2.symm
      simp only [setL, h, if_false, List.map_cons, ih, List.mem_cons, h', false_or]
      split <;> simp

theorem nodup_setL [DecidableEq κ] (k : κ) (v : ν) (l : List (κ × ν))
    (h : (l.map Prod.fst).Nodup) : ((setL k v l).map Prod.fst).Nodup := by
  rw [keys_setL]
  split
  · exact h
  · rename_i hk
    exact List.Nodup.append h (List.nodup_singleton k) (by
      intro a ha hb
      simp only [List.mem_singleton] at hb
      exact hk (hb ▸ ha))

theorem nodup_delL [DecidableEq κ] (k : κ) (l : List (κ × ν))
    (h : (l.map Prod.fst).Nodup) : ((delL k l).map Prod.fst).Nodup := by
  unfold delL
  exact (List.Nodup.sublist (List.Sublist.map Prod.fst (List.filter_sublist l)) h)

/-- The map `make(map[K]V)`. -/
def empty : GoMap κ ν := ⟨[], List.nodup_nil⟩

/-- Read `m[k]` with the comma-ok form: `none` when the key is absent. -/
def get? [DecidableEq κ] (m : GoMap κ ν) (k : κ) : Option ν := getL k m.entries

/-- Assignment `m[k] = v`. -/
def set [DecidableEq κ] (m : GoMap κ ν) (k : κ) (v : ν) : GoMap κ ν :=
  ⟨setL k v m.entries, nodup_setL k v m.entries m.nodupKeys⟩

/-- Removal `delete(m, k)`. -/
def delete [DecidableEq κ] (m : GoMap κ ν) (k : κ) : GoMap κ ν :=
  ⟨delL k m.entries, nodup_delL k m.entries m.nodupKeys⟩

/-- Number of entries `len(m)`. -/
def len (m : GoMap κ ν) : Nat := m.entries.length

/-- Keys of the map in iteration order. -/
def keys (m : GoMap κ ν) : List κ := m.entries.map Prod.fst

/-- Values of the map in iteration order. -/
def values (m : GoMap κ ν) : List ν := m.entries.map Prod.snd

end GoMap

instance {κ ν : Type} [DecidableEq κ] [DecidableEq ν] : DecidableEq (GoMap κ ν) := fun a b =>
  match a, b with
  | ⟨ea, _⟩, ⟨eb, _⟩ =>
    if h : ea = eb then isTrue (by subst h; rfl) else isFalse (fun h2 => h (by cases h2; rfl))

/-! ## Collaborator `DNA/crypto` -/

namespace crypto

/-- Modelled from the spec: the Identity, declared in `DNA/crypto` and not among the source
files, an externally owned public-key value with two coordinate components; each coordinate
is an integer (a `*big.Int`). -/
structure PubKey where
  X : Int
  Y : Int
deriving DecidableEq, Repr

end crypto

/-! ## `core/store/ChainStore/stateupdater.go` -/

namespace ChainStore

/-- Record `StateUpdater`: the key it belongs to and the map of its namespaces
(`map[string]string`, each namespace stored under itself). -/
structure StateUpdater where
  PubKey : crypto.PubKey
  namespaces : GoMap String String
deriving DecidableEq

/-- Loop of `NewStateUpdater`: `ns[namespace] = namespace` for every non-empty name. -/
def NewStateUpdater.loop : List String → GoMap String String → GoMap String String
  | [], ns => ns
  | name :: rest, ns =>
    if name = "" then NewStateUpdater.loop rest ns
    else NewStateUpdater.loop rest (ns.set name name)

/-- Constructor `NewStateUpdater`. -/
def NewStateUpdater (pubkey : crypto.PubKey) (namespaces : List String) : StateUpdater :=
  { PubKey := pubkey, namespaces := NewStateUpdater.loop namespaces GoMap.empty }

/-- Method `HasNamespace`: `_, ok := p.namespaces[namespace]; return ok`. -/
def StateUpdater.HasNamespace (p : StateUpdater) (ns : String) : Bool × StateUpdater :=
  ((p.namespaces.get? ns).isSome, p)

/-- Method `AddNamespace`. -/
def StateUpdater.AddNamespace (p : StateUpdater) (ns : String) : Bool × StateUpdater :=
  if (p.namespaces.get? ns).isSome then (false, p)
  else (true, { p with namespaces := p.namespaces.set ns ns })

/-- Method `DelNamespace`. -/
def StateUpdater.DelNamespace (p : StateUpdater) (ns : String) : Bool × StateUpdater :=
  if ¬ (p.namespaces.get? ns).isSome then (false, p)
  else (true, { p with namespaces := p.namespaces.delete ns })

end ChainStore

/-! ## Bytes, errors and the collaborators -/

/-- One byte. -/
abbrev Byte := Fin 256

/-- Byte sequence `[]byte`; also the bytes that remain in an `io.Reader`. -/
abbrev Bytes := List Byte

/-- Go `error` values.  `EOF` and `Message` are raised by collaborators; `Errorf` is
`fmt.Errorf(format, ..., err)` (only the format and the error it formats are kept);
`DetailErr` is the error that `NewDetailErr` of `DNA/errors` builds around a cause. -/
inductive Error where
  | EOF
  | Message (text : String)
  | Errorf (format : String) (err : Error)
  | DetailErr (err : Error) (msg : String)
deriving DecidableEq, Repr

/-- Modelled from the spec: `NewDetailErr(err, ErrNoCode, msg)` of `DNA/errors`, whose code
is not among the source files: a decode error that names the field in `msg` and wraps the
underlying cause.  A nil cause is shown as the message `<nil>`. -/
def NewDetailErr (err : Option Error) (msg : String) : Error :=
  match err with
  | some cause => Error.DetailErr cause msg
  | none => Error.DetailErr (Error.Message "<nil>") msg

instance {ε α : Type} [DecidableEq ε] [DecidableEq α] : DecidableEq (Except ε α) := fun a b =>
  match a, b with
  | Except.ok x, Except.ok y =>
    if h : x = y then isTrue (by rw [h]) else isFalse (fun h2 => h (Except.ok.inj h2))
  | Except.error x, Except.error y =>
    if h : x = y then isTrue (by rw [h]) else isFalse (fun h2 => h (Except.error.inj h2))
  | Except.ok _, Except.error _ => isFalse (fun h => by cases h)
  | Except.error _, Except.ok _ => isFalse (fun h => by cases h)

/-- Effect of an encoder on its `io.Writer`: the bytes it appended and the error it
returned (`none` for nil). -/
abbrev Written := Bytes × Option Error

/-- Sequencing `err := first; if err != nil return wrap(err); next`: on an error of the
first part nothing more is written. -/
def Written.andThen (first : Written) (wrap : Error → Error) (next : Written) : Written :=
  match first.2 with
  | some err => (first.1, some (wrap err))
  | none => (first.1 ++ next.1, next.2)

/-- Collaborators whose code is outside the two source files: the identity codec
(`crypto.PubKey.Serialize` and `DeSerialize`) and the primitive codec of
`DNA/common/serialization`.  They are parameters of the embedding. -/
structure Collab where
  PubKeySerialize : crypto.PubKey → Written
  PubKeyDeSerialize : Bytes → Except Error (crypto.PubKey × Bytes)
  WriteUint32 : Nat → Written
  ReadUint32 : Bytes → Except Error (Nat × Bytes)
  WriteVarString : String → Written
  ReadVarString : Bytes → Except Error (String × Bytes)
  WriteVarBytes : Bytes → Written
  ReadVarBytes : Bytes → Except Error (Bytes × Bytes)

/-- Verb `%x` of `fmt.Sprintf` on a `*big.Int`: the lower-case hexadecimal digits of the
magnitude, without leading zeros and without padding, after `-` for a negative number. -/
def fmtHex (z : Int) : String :=
  (if z < 0 then "-" else "") ++ String.mk (Nat.toDigits 16 z.natAbs)

namespace ChainStore

/-- Method `StateUpdater.Serialize`: the loop `for namespace := range p.namespaces`. -/
def StateUpdater.Serialize.loop (c : Collab) : List String → Written
  | [] => ([], none)
  | ns :: rest =>
    (c.WriteVarString ns).andThen
      (Error.Errorf "serialization.WriteVarString namespace:%s error:%s")
      (StateUpdater.Serialize.loop c rest)

/-- Method `StateUpdater.Serialize`. -/
def StateUpdater.Serialize (c : Collab) (p : StateUpdater) : Written :=
  (c.PubKeySerialize p.PubKey).andThen (Error.Errorf "Serialize PubKey error:%s")
    ((c.WriteUint32 (p.namespaces.len % 2 ^ 32)).andThen
      (Error.Errorf "serialization.WriteUint32 namespace size:%d error:%s")
      (StateUpdater.Serialize.loop c p.namespaces.keys))

/-- Method `StateUpdater.Deserialize`: the loop `for i := uint32(0); i < size; i++`, with
the number of rounds still to run, the reader and the map built so far. -/
def StateUpdater.Deserialize.loop (c : Collab) :
    Nat → Bytes → GoMap String String → Except Error (GoMap String String × Bytes)
  | 0, r, namespaces => Except.ok (namespaces, r)
  | i + 1, r, namespaces =>
    match c.ReadVarString r with
    | Except.error err =>
      Except.error (Error.Errorf "serialization.ReadVarString namespace error:%s" err)
    | Except.ok (ns, r1) => StateUpdater.Deserialize.loop c i r1 (namespaces.set ns ns)

/-- Method `StateUpdater.Deserialize`: the error or the reader after the Record, and the
receiver afterwards. -/
def StateUpdater.Deserialize (c : Collab) (p : StateUpdater) (r : Bytes) :
    Except Error Bytes × StateUpdater :=
  match c.PubKeyDeSerialize r with
  | Except.error err => (Except.error (Error.Errorf "crypto.PubKey DeSerialize error:%s" err), p)
  | Except.ok (pubkey, r1) =>
    match c.ReadUint32 r1 with
    | Except.error err =>
      (Except.error (Error.Errorf "serialization.ReadUint32 namespace size error:%s" err), p)
    | Except.ok (size, r2) =>
      match StateUpdater.Deserialize.loop c size r2 GoMap.empty with
      | Except.error err => (Except.error err, p)
      | Except.ok (namespaces, r3) => (Except.ok r3, { PubKey := pubkey, namespaces := namespaces })

/-- Value of `new(StateUpdater)`.  Its nil key and nil map are stood for by a zero key and
an empty map; `Deserialize` replaces both before anything reads them. -/
def StateUpdater.new : StateUpdater := { PubKey := { X := 0, Y := 0 }, namespaces := GoMap.empty }

/-- Registry `StateUpdaterMgr`: Records by derived key. -/
structure StateUpdaterMgr where
  states : GoMap String StateUpdater
deriving DecidableEq

/-- Method `GetPubKeyId`: `fmt.Sprintf("%x%x", pubKey.X, pubKey.Y)`. -/
def StateUpdaterMgr.GetPubKeyId (_p : StateUpdaterMgr) (pubKey : crypto.PubKey) : String :=
  fmtHex pubKey.X ++ fmtHex pubKey.Y

/-- Method `AddStateUpdater`: `p.states[p.GetPubKeyId(state.PubKey)] = state`. -/
def StateUpdaterMgr.AddStateUpdater (p : StateUpdaterMgr) (state : StateUpdater) :
    StateUpdaterMgr :=
  { states := p.states.set (p.GetPubKeyId state.PubKey) state }

/-- Method `GetStateUpdater`: the Record stored under the key of `pubkey`, `none` for nil. -/
def StateUpdaterMgr.GetStateUpdater (p : StateUpdaterMgr) (pubkey : crypto.PubKey) :
    Option StateUpdater × StateUpdaterMgr :=
  (p.states.get? (p.GetPubKeyId pubkey), p)

/-- Method `StateUpdaterMgr.HasNamespace`.  `state` is a pointer to the Record stored under
the key of `pubKey`: what `state.HasNamespace` leaves of that Record is what the registry
holds under that key afterwards. -/
def StateUpdaterMgr.HasNamespace (p : StateUpdaterMgr) (pubKey : crypto.PubKey) (ns : String) :
    Bool × StateUpdaterMgr :=
  match p.GetStateUpdater pubKey with
  | (none, p1) => (false, p1)
  | (some state, p1) =>
    let res := state.HasNamespace ns
    (res.1, { states := p1.states.set (p1.GetPubKeyId pubKey) res.2 })

/-- Constructor `NewStateUpdaterMgr`: the loop `for pubkey, namespaces := range stateUpdaters`
over the entries that remain, in the order `range` visits them.  `&pubkey` is the address of
the range variable of the current iteration, which holds the key of the current entry: each
Record keeps the key of its own entry. -/
def NewStateUpdaterMgr.loop :
    List (crypto.PubKey × List String) → StateUpdaterMgr → StateUpdaterMgr
  | [], mgr => mgr
  | (pubkey, namespaces) :: rest, mgr =>
    NewStateUpdaterMgr.loop rest (mgr.AddStateUpdater (NewStateUpdater pubkey namespaces))

/-- Constructor `NewStateUpdaterMgr`.  The argument lists the entries of the Go map
`map[crypto.PubKey][]string` in the order `range` visits them; the keys of that map are
structs of two pointers, so two entries may carry equal coordinates. -/
def NewStateUpdaterMgr (stateUpdaters : List (crypto.PubKey × List String)) : StateUpdaterMgr :=
  NewStateUpdaterMgr.loop stateUpdaters { states := GoMap.empty }

/-- Method `StateUpdaterMgr.Serialize`: the loop `for _, state := range p.states`. -/
def StateUpdaterMgr.Serialize.loop (c : Collab) : List StateUpdater → Written
  | [] => ([], none)
  | state :: rest =>
    (state.Serialize c).andThen (Error.Errorf "StateUpdater Serialize error:%s")
      (StateUpdaterMgr.Serialize.loop c rest)

/-- Method `StateUpdaterMgr.Serialize`. -/
def StateUpdaterMgr.Serialize (c : Collab) (p : StateUpdaterMgr) : Written :=
  (c.WriteUint32 (p.states.len % 2 ^ 32)).andThen
    (Error.Errorf "serialization.WriteUint32 state size:%d error:%s")
    (StateUpdaterMgr.Serialize.loop c p.states.values)

/-- Method `StateUpdaterMgr.Deserialize`: the loop `for i := uint32(0); i < count; i++`, with
the number of rounds still to run, the reader and the registry so far. -/
def StateUpdaterMgr.Deserialize.loop (c : Collab) :
    Nat → Bytes → StateUpdaterMgr → Except Error Bytes × StateUpdaterMgr
  | 0, r, p => (Except.ok r, p)
  | i + 1, r, p =>
    match StateUpdater.Deserialize c StateUpdater.new r with
    | (Except.error err, _) =>
      (Except.error (Error.Errorf "StateUpdater Deserialize error:%s" err), p)
    | (Except.ok r1, state) => StateUpdaterMgr.Deserialize.loop c i r1 (p.AddStateUpdater state)

/-- Method `StateUpdaterMgr.Deserialize`: the error or the reader after the registry, and
the receiver afterwards. -/
def StateUpdaterMgr.Deserialize (c : Collab) (p : StateUpdaterMgr) (r : Bytes) :
    Except Error Bytes × StateUpdaterMgr :=
  match c.ReadUint32 r with
  | Except.error err =>
    (Except.error (Error.Errorf "serialization.ReadUint32 StateUpdater size error:%s" err), p)
  | Except.ok (count, r1) =>
    StateUpdaterMgr.Deserialize.loop c count r1 { states := GoMap.empty }

end ChainStore

/-! ## `core/transaction/payload/StateUpdater.go` -/

namespace payload

/-- Type `StateUpdaterAction`, a byte. -/
abbrev StateUpdaterAction := Byte

/-- Constant `StateUpdaterPayloadVersion`. -/
def StateUpdaterPayloadVersion : Byte := 0

/-- Constant `StateUpdaterAction_ADD`. -/
def StateUpdaterAction_ADD : StateUpdaterAction := 0

/-- Constant `StateUpdaterAction_SUB`. -/
def StateUpdaterAction_SUB : StateUpdaterAction := 1

/-- Action payload `StateUpdater`. -/
structure StateUpdater where
  Namespace : Bytes
  PubKey : crypto.PubKey
  Action : StateUpdaterAction
  Cert : Bytes
deriving DecidableEq

/-- Method `Data`: the content of the local `bytes.Buffer`.  The errors the three encoders
return are dropped by the source, and whatever each of them wrote stays in the buffer. -/
def StateUpdater.Data (c : Collab) (self : StateUpdater) (_version : Byte) : Bytes :=
  (c.WriteVarBytes self.Namespace).1 ++ (c.PubKeySerialize self.PubKey).1 ++
    [self.Action] ++ (c.WriteVarBytes self.Cert).1

/-- Method `Serialize`: one `w.Write` of `Data(version)`; `w` is the `Write` method of the
`io.Writer`, and its error is returned. -/
def StateUpdater.Serialize (c : Collab) (self : StateUpdater) (w : Bytes → Written)
    (version : Byte) : Written :=
  w (self.Data c version)

/-- Call `r.Read(p[:])` with `p` a one-byte array, on a reader that is a byte sequence:
the count `n`, the error, `p[0]` afterwards, and the reader afterwards. -/
def Read1 : Bytes → Nat × Option Error × Byte × Bytes
  | [] => (0, some Error.EOF, 0, [])
  | b :: rest => (1, none, b, rest)

/-- Method `Deserialize`: the error or the reader after the payload, and the receiver
afterwards.  The fields are assigned one by one as the source does; where a decoder fails,
the field it was to fill is left at its zero value. -/
def StateUpdater.Deserialize (c : Collab) (self : StateUpdater) (r : Bytes) (_version : Byte) :
    Except Error Bytes × StateUpdater :=
  match c.ReadVarBytes r with
  | Except.error err =>
    (Except.error (NewDetailErr (some err) "[StateUpdater], Namespace Deserialize failed."),
      { self with Namespace := [] })
  | Except.ok (ns, r1) =>
    match c.PubKeyDeSerialize r1 with
    | Except.error err =>
      (Except.error (NewDetailErr (some err) "[StateUpdater], PubKey Deserialize failed."),
        { self with Namespace := ns, PubKey := { X := 0, Y := 0 } })
    | Except.ok (pubkey, r2) =>
      match Read1 r2 with
      | (0, err, _, _) =>
        (Except.error
            (NewDetailErr err "[StateUpdater], Action Deserialize failed."),
          { self with Namespace := ns, PubKey := pubkey })
      | (_, _, p0, r3) =>
        match c.ReadVarBytes r3 with
        | Except.error err =>
          (Except.error (NewDetailErr (some err) "[StateUpdater], Cert Deserialize failed."),
            { Namespace := ns, PubKey := pubkey, Action := p0, Cert := [] })
        | Except.ok (cert, r4) =>
          (Except.ok r4, { Namespace := ns, PubKey := pubkey, Action := p0, Cert := cert })

/-- An `io.Writer` that accepts every write, such as a `bytes.Buffer`. -/
def bufferWrite (b : Bytes) : Written := (b, none)

end payload

/-! ## The collaborators as the specification describes them -/

namespace serialization

/-- Little-endian bytes of a number, `w` of them. -/
def leBytes : Nat → Nat → Bytes
  | 0, _ => []
  | w + 1, n => Fin.ofNat n :: leBytes w (n / 256)

/-- Number that little-endian bytes stand for. -/
def leVal : Bytes → Nat
  | [] => 0
  | b :: t => b.val + 256 * leVal t

/-- The first `n` bytes of a reader and the reader after them; `none` on a short read. -/
def takeN : Nat → Bytes → Option (Bytes × Bytes)
  | 0, r => some ([], r)
  | _ + 1, [] => none
  | n + 1, b :: r => (takeN n r).map (fun x => (b :: x.1, x.2))

/-- Modelled from the spec: `U32`, the writer of a 32-bit unsigned integer of the Binary
Primitive Codec, whose code is not among the source files; the byte order, which the
specification leaves to the collaborator, is little-endian here. -/
def WriteUint32 (n : Nat) : Written := (leBytes 4 n, none)

/-- Modelled from the spec: the reader of `U32`, which fails on a short read. -/
def ReadUint32 (r : Bytes) : Except Error (Nat × Bytes) :=
  match takeN 4 r with
  | none => Except.error Error.EOF
  | some (b, r1) => Except.ok (leVal b, r1)

/-- Modelled from the spec: `LenPrefixed(x)`, that is `U32(len(x))` followed by the raw
bytes of `x`. -/
def WriteVarBytes (x : Bytes) : Written := (leBytes 4 (x.length % 2 ^ 32) ++ x, none)

/-- Modelled from the spec: the reader of `LenPrefixed`, which fails on a short read of the
length or of the bytes. -/
def ReadVarBytes (r : Bytes) : Except Error (Bytes × Bytes) :=
  match ReadUint32 r with
  | Except.error err => Except.error err
  | Except.ok (n, r1) =>
    match takeN n r1 with
    | none => Except.error Error.EOF
    | some (x, r2) => Except.ok (x, r2)

/-- Bytes of a Go string written as text: one byte per character, its code modulo 256
(exact for ASCII text). -/
def stringBytes (s : String) : Bytes := s.toList.map (fun ch => Fin.ofNat ch.toNat)

/-- Go string with the given bytes, as text: one character per byte. -/
def bytesString (b : Bytes) : String := String.mk (b.map (fun x => Char.ofNat x.val))

/-- Modelled from the spec: a namespace written as a length-prefixed byte string. -/
def WriteVarString (s : String) : Written := WriteVarBytes (stringBytes s)

/-- Modelled from the spec: the reader of a length-prefixed byte string as a Go string. -/
def ReadVarString (r : Bytes) : Except Error (String × Bytes) :=
  match ReadVarBytes r with
  | Except.error err => Except.error err
  | Except.ok (x, r1) => Except.ok (bytesString x, r1)

end serialization

namespace crypto

/-- Modelled from the spec: the Identity Codec's encoder, whose code is not among the source
files; the specification asks only for a self-delimited layout, here 32 little-endian bytes
for each coordinate, refused when a coordinate is negative or needs more than 32 bytes. -/
def PubKey.Serialize (k : PubKey) : Written :=
  if 0 ≤ k.X ∧ k.X < 2 ^ 256 ∧ 0 ≤ k.Y ∧ k.Y < 2 ^ 256 then
    (serialization.leBytes 32 k.X.toNat ++ serialization.leBytes 32 k.Y.toNat, none)
  else ([], some (Error.Message "invalid public key"))

/-- Modelled from the spec: the Identity Codec's decoder for the layout of
`PubKey.Serialize`, which fails on a short read. -/
def PubKey.DeSerialize (r : Bytes) : Except Error (PubKey × Bytes) :=
  match serialization.takeN 32 r with
  | none => Except.error Error.EOF
  | some (x, r1) =>
    match serialization.takeN 32 r1 with
    | none => Except.error Error.EOF
    | some (y, r2) =>
      Except.ok ({ X := Int.ofNat (serialization.leVal x), Y := Int.ofNat (serialization.leVal y) }, r2)

end crypto

/-- Modelled from the spec: the collaborators of sections 2 and 6 of the specification
(Binary Primitive Codec and Identity Codec), put together. -/
def specCollab : Collab :=
  { PubKeySerialize := crypto.PubKey.Serialize
    PubKeyDeSerialize := crypto.PubKey.DeSerialize
    WriteUint32 := serialization.WriteUint32
    ReadUint32 := serialization.ReadUint32
    WriteVarString := serialization.WriteVarString
    ReadVarString := serialization.ReadVarString
    WriteVarBytes := serialization.WriteVarBytes
    ReadVarBytes := serialization.ReadVarBytes }

/-! ## What "the codec round-trips" means for one value -/

/-- Reading what the primitive codec wrote for the 32-bit number `n`, followed by any bytes,
returns `n` and leaves those bytes. -/
def Collab.ReadsBackUint32 (c : Collab) (n : Nat) : Prop :=
  ∀ tail : Bytes, c.ReadUint32 ((c.WriteUint32 n).1 ++ tail) = Except.ok (n, tail)

/-- Reading what the primitive codec wrote for the string `s`, followed by any bytes,
returns `s` and leaves those bytes. -/
def Collab.ReadsBackVarString (c : Collab) (s : String) : Prop :=
  ∀ tail : Bytes, c.ReadVarString ((c.WriteVarString s).1 ++ tail) = Except.ok (s, tail)

/-- Reading what the primitive codec wrote for the byte string `x`, followed by any bytes,
returns `x` and leaves those bytes. -/
def Collab.ReadsBackVarBytes (c : Collab) (x : Bytes) : Prop :=
  ∀ tail : Bytes, c.ReadVarBytes ((c.WriteVarBytes x).1 ++ tail) = Except.ok (x, tail)

/-- Reading what the identity codec wrote for the key `k`, followed by any bytes, returns
`k` and leaves those bytes. -/
def Collab.ReadsBackPubKey (c : Collab) (k : crypto.PubKey) : Prop :=
  ∀ tail : Bytes, c.PubKeyDeSerialize ((c.PubKeySerialize k).1 ++ tail) = Except.ok (k, tail)

/-- The codecs round-trip on a Record: the identity, the namespace count and every
namespace are written without error and read back. -/
def Collab.RoundTripsRecord (c : Collab) (state : ChainStore.StateUpdater) : Prop :=
  ((c.PubKeySerialize state.PubKey).2 = none ∧ c.ReadsBackPubKey state.PubKey) ∧
  ((c.WriteUint32 (state.namespaces.len % 2 ^ 32)).2 = none ∧
    c.ReadsBackUint32 (state.namespaces.len % 2 ^ 32)) ∧
  ∀ ns ∈ state.namespaces.keys, (c.WriteVarString ns).2 = none ∧ c.ReadsBackVarString ns

/-! ## The Records of an input -/

namespace ChainStore

/-- The Records that `n` successive calls of `StateUpdater.Deserialize`, each on a fresh
Record, decode from a reader, in the order they are decoded, and the reader after them. -/
def decodeRecords (c : Collab) : Nat → Bytes → Except Error (List StateUpdater × Bytes)
  | 0, r => Except.ok ([], r)
  | n + 1, r =>
    match StateUpdater.Deserialize c StateUpdater.new r with
    | (Except.error err, _) => Except.error err
    | (Except.ok r1, state) =>
      match decodeRecords c n r1 with
      | Except.error err => Except.error err
      | Except.ok (states, r2) => Except.ok (state :: states, r2)

/-- The last Record of a list whose identity has the derived key `key`. -/
def lastWithKey (p : StateUpdaterMgr) (key : String) : List StateUpdater → Option StateUpdater
  | [] => none
  | state :: rest =>
    match lastWithKey p key rest with
    | some later => some later
    | none => if p.GetPubKeyId state.PubKey = key then some state else none

end ChainStore

/-! ## What `NewStateUpdaterMgr` builds, entry by entry -/

namespace ChainStore

/-- The last entry of an initial mapping, as `range` visits it, whose key has the derived
key `key`. -/
def lastEntryWithKey (p : StateUpdaterMgr) (key : String) :
    List (crypto.PubKey × List String) → Option (crypto.PubKey × List String)
  | [] => none
  | entry :: rest =>
    match lastEntryWithKey p key rest with
    | some later => some later
    | none => if p.GetPubKeyId entry.1 = key then some entry else none

end ChainStore

/-! ## Registries whose Records sit under their own keys -/

namespace ChainStore

/-- Every namespace of the Record is stored under itself, as `NewStateUpdater`,
`AddNamespace` and `Deserialize` store it. -/
def StateUpdater.SelfKeyed (state : StateUpdater) : Prop :=
  ∀ e ∈ state.namespaces.entries, e.2 = e.1

/-- Every Record of the registry is stored under the derived key of the identity it shows. -/
def StateUpdaterMgr.Keyed (p : StateUpdaterMgr) : Prop :=
  ∀ e ∈ p.states.entries, e.1 = p.GetPubKeyId e.2.PubKey

/-- The Record with the identity and the namespaces of `state`, each namespace stored under
itself: what decoding the encoding of `state` builds. -/
def StateUpdater.rebuilt (state : StateUpdater) : StateUpdater :=
  { PubKey := state.PubKey
    namespaces := state.namespaces.keys.foldl (fun m k => m.set k k) GoMap.empty }

instance (state : StateUpdater) : Decidable state.SelfKeyed :=
  inferInstanceAs (Decidable (∀ e ∈ state.namespaces.entries, e.2 = e.1))

instance (p : StateUpdaterMgr) : Decidable p.Keyed :=
  inferInstanceAs (Decidable (∀ e ∈ p.states.entries, e.1 = p.GetPubKeyId e.2.PubKey))

end ChainStore

/-! ## Concrete inputs -/

/-- The payload of the specification's example: namespace "finance", action Add, empty
certificate, for the key (1, 2). -/
def payload.financeAdd : payload.StateUpdater :=
  { Namespace := serialization.stringBytes "finance"
    PubKey := { X := 1, Y := 2 }
    Action := payload.StateUpdaterAction_ADD
    Cert := [] }

/-- A Record of the key (1, 2) with the namespace "finance". -/
def ChainStore.financeRecord : ChainStore.StateUpdater :=
  ChainStore.NewStateUpdater { X := 1, Y := 2 } ["finance"]

/-- A Record of the same key (1, 2) with the namespace "hr". -/
def ChainStore.hrRecord : ChainStore.StateUpdater :=
  ChainStore.NewStateUpdater { X := 1, Y := 2 } ["hr"]

/-- An input for `StateUpdaterMgr.Deserialize`: the count 2, then the encodings of two
Records of the same key, the first with "finance" and the second with "hr". -/
def ChainStore.sameKeyInput : Bytes :=
  (specCollab.WriteUint32 2).1 ++ (ChainStore.financeRecord.Serialize specCollab).1 ++
    (ChainStore.hrRecord.Serialize specCollab).1

/-- A registry with prior content: one Record, of the key (7, 8), with the namespace "old". -/
def ChainStore.priorRegistry : ChainStore.StateUpdaterMgr :=
  ChainStore.StateUpdaterMgr.AddStateUpdater { states := GoMap.empty }
    (ChainStore.NewStateUpdater { X := 7, Y := 8 } ["old"])

/-- The registry that holds the Record with "hr" alone. -/
def ChainStore.hrRegistry : ChainStore.StateUpdaterMgr :=
  ChainStore.StateUpdaterMgr.AddStateUpdater { states := GoMap.empty } ChainStore.hrRecord

/-- Identity `A` of the specification's example. -/
def ChainStore.keyA : crypto.PubKey := { X := 0xa1, Y := 0xa2 }

/-- Identity `B` of the specification's example. -/
def ChainStore.keyB : crypto.PubKey := { X := 0xb1, Y := 0xb2 }

/-- The registry of the specification's example, built from `{A: ["finance","hr"], B: []}`
when `range` visits `A` first. -/
def ChainStore.registryAB : ChainStore.StateUpdaterMgr :=
  ChainStore.NewStateUpdaterMgr [(ChainStore.keyA, ["finance", "hr"]), (ChainStore.keyB, [])]

/-- The registry of the specification's example, built from `{A: ["finance","hr"], B: []}`
when `range` visits `B` first. -/
def ChainStore.registryBA : ChainStore.StateUpdaterMgr :=
  ChainStore.NewStateUpdaterMgr [(ChainStore.keyB, []), (ChainStore.keyA, ["finance", "hr"])]

/-- The registry built from an initial mapping with two entries of the identity `A`, the
first with "finance" and the second with "hr", in this order of visit. -/
def ChainStore.registryTwice : ChainStore.StateUpdaterMgr :=
  ChainStore.NewStateUpdaterMgr [(ChainStore.keyA, ["finance"]), (ChainStore.keyA, ["hr"])]

/-- The registry built from the same two entries of the identity `A` when `range` visits
them in the other order. -/
def ChainStore.registryTwiceReversed : ChainStore.StateUpdaterMgr :=
  ChainStore.NewStateUpdaterMgr [(ChainStore.keyA, ["hr"]), (ChainStore.keyA, ["finance"])]

/-- The (identity, namespaces) pairs of the Records of a registry, in iteration order. -/
def ChainStore.StateUpdaterMgr.pairs (p : ChainStore.StateUpdaterMgr) :
    List (crypto.PubKey × List String) :=
  p.states.values.map (fun state => (state.PubKey, state.namespaces.keys))

/-- The registry of the specification's example, built Record by Record with
`AddStateUpdater`: `A` with "finance" and "hr", `B` without namespaces. -/
def ChainStore.registryAdded : ChainStore.StateUpdaterMgr :=
  ChainStore.StateUpdaterMgr.AddStateUpdater
    (ChainStore.StateUpdaterMgr.AddStateUpdater { states := GoMap.empty }
      (ChainStore.NewStateUpdater ChainStore.keyA ["finance", "hr"]))
    (ChainStore.NewStateUpdater ChainStore.keyB [])

/-- A payload with other content, as the receiver that `Deserialize` overwrites. -/
def payload.stale : payload.StateUpdater :=
  { Namespace := [9], PubKey := { X := 5, Y := 6 }, Action := payload.StateUpdaterAction_SUB,
    Cert := [8, 8] }

/-! ## Sequences of calls on one Record -/

namespace ChainStore

/-- One call of a membership method on a Record. -/
inductive Call where
  | has (ns : String)
  | add (ns : String)
  | del (ns : String)
deriving DecidableEq

/-- Execute one call: the method's result and the Record afterwards. -/
def Call.run (p : StateUpdater) : Call → Bool × StateUpdater
  | Call.has ns => p.HasNamespace ns
  | Call.add ns => p.AddNamespace ns
  | Call.del ns => p.DelNamespace ns

/-- Execute a sequence of calls from left to right; the Record after the last one. -/
def runCalls (p : StateUpdater) : List Call → StateUpdater
  | [] => p
  | c :: cs => runCalls (c.run p).2 cs

end ChainStore

/-! ## The namespaces of an input, and inputs cut short -/

namespace ChainStore

/-- The namespaces that `n` successive calls of `ReadVarString` read from a reader, in the
order they are read, and the reader after them. -/
def decodeNames (c : Collab) : Nat → Bytes → Except Error (List String × Bytes)
  | 0, r => Except.ok ([], r)
  | n + 1, r =>
    match c.ReadVarString r with
    | Except.error err => Except.error err
    | Except.ok (ns, r1) =>
      match decodeNames c n r1 with
      | Except.error err => Except.error err
      | Except.ok (names, r2) => Except.ok (ns :: names, r2)

end ChainStore

/-- The bytes `b` are the bytes `w` cut short: `w` is `b` followed by at least one byte. -/
def Truncated (b w : Bytes) : Prop := ∃ t : Bytes, t ≠ [] ∧ w = b ++ t

/-- The primitive codec fails on every input that is what it wrote for the 32-bit number
`n`, cut short. -/
def Collab.RejectsCutUint32 (c : Collab) (n : Nat) : Prop :=
  ∀ b : Bytes, Truncated b (c.WriteUint32 n).1 → ∃ err, c.ReadUint32 b = Except.error err

/-- The primitive codec fails on every input that is what it wrote for the string `s`,
cut short. -/
def Collab.RejectsCutVarString (c : Collab) (s : String) : Prop :=
  ∀ b : Bytes, Truncated b (c.WriteVarString s).1 → ∃ err, c.ReadVarString b = Except.error err

/-- The primitive codec fails on every input that is what it wrote for the byte string `x`,
cut short. -/
def Collab.RejectsCutVarBytes (c : Collab) (x : Bytes) : Prop :=
  ∀ b : Bytes, Truncated b (c.WriteVarBytes x).1 → ∃ err, c.ReadVarBytes b = Except.error err

/-- The identity codec fails on every input that is what it wrote for the key `k`, cut
short. -/
def Collab.RejectsCutPubKey (c : Collab) (k : crypto.PubKey) : Prop :=
  ∀ b : Bytes, Truncated b (c.PubKeySerialize k).1 →
    ∃ err, c.PubKeyDeSerialize b = Except.error err

/-- The codecs fail on every cut-short encoding of a part of the Record: of its identity,
of its namespace count, of each of its namespaces. -/
def Collab.RejectsCutRecord (c : Collab) (state : ChainStore.StateUpdater) : Prop :=
  c.RejectsCutPubKey state.PubKey ∧
  c.RejectsCutUint32 (state.namespaces.len % 2 ^ 32) ∧
  ∀ ns ∈ state.namespaces.keys, c.RejectsCutVarString ns

/-! ## Concrete inputs cut short -/

/-- The encoding of the payload `financeAdd` cut right before the action byte: its first 75
bytes (11 of the Namespace, 64 of the identity). -/
def payload.financeAddCut : Bytes :=
  (payload.financeAdd.Serialize specCollab payload.bufferWrite
    payload.StateUpdaterPayloadVersion).1.take 75

/-- The encoding of the registry `registryAdded` cut after its first 100 bytes, inside the
identity of the second Record. -/
def ChainStore.registryAddedCut : Bytes :=
  (ChainStore.registryAdded.Serialize specCollab).1.take 100

/-! ## Concrete payloads -/

/-- A payload whose identity the identity codec of the specification refuses to encode: its
first coordinate is negative. -/
def payload.refusedKey : payload.StateUpdater :=
  { Namespace := serialization.stringBytes "finance"
    PubKey := { X := -1, Y := 2 }
    Action := payload.StateUpdaterAction_ADD
    Cert := [] }

/-- A payload with an action byte that is neither Add nor Sub. -/
def payload.actionTwo : payload.StateUpdater :=
  { Namespace := serialization.stringBytes "finance"
    PubKey := { X := 1, Y := 2 }
    Action := 2
    Cert := [] }

/-! ## Registries that the operations can build -/

namespace ChainStore

/-- The registries reachable from `NewStateUpdaterMgr` by calls of `AddStateUpdater` and
successful calls of `StateUpdaterMgr.Deserialize`. -/
inductive Reachable (c : Collab) : StateUpdaterMgr → Prop where
  | new (stateUpdaters : List (crypto.PubKey × List String)) :
      Reachable c (NewStateUpdaterMgr stateUpdaters)
  | add (p : StateUpdaterMgr) (state : StateUpdater) :
      Reachable c p → Reachable c (p.AddStateUpdater state)
  | deserialize (p q : StateUpdaterMgr) (r rest : Bytes) :
      Reachable c p → p.Deserialize c r = (Except.ok rest, q) → Reachable c q

end ChainStore

/-! # Theorems -/

/-! ## Go maps -/

namespace GoMap

theorem ext_entries {κ ν : Type} {a b : GoMap κ ν} (h : a.entries = b.entries) : a = b := by
  cases a; cases b; cases h; rfl

variable {κ ν : Type} [DecidableEq κ]

theorem getL_setL_same (k : κ) (v : ν) (l : List (κ × ν)) : getL k (setL k v l) = some v := by
  induction l with
  | nil => simp [setL, getL]
  | cons e t ih =>
    by_cases h : e.1 = k
    · simp [setL, getL, h]
    · simp [setL, getL, h, ih]

theorem getL_setL_ne {k k2 : κ} (v : ν) (l : List (κ × ν)) (h : k2 ≠ k) :
    getL k2 (setL k v l) = getL k2 l := by
  induction l with
  | nil => simp [setL, getL, h.symm]
  | cons e t ih =>
    by_cases h1 : e.1 = k
    · have h2 : ¬ e.1 = k2 := fun h3 => h (h3.symm.trans h1)
      simp [setL, getL, h1, h2, h.symm]
    · simp [setL, getL, h1, ih]

theorem delL_cons (k : κ) (e : κ × ν) (t : List (κ × ν)) :
    delL k (e :: t) = if e.1 = k then delL k t else e :: delL k t := by
  by_cases h : e.1 = k <;> simp [delL, List.filter_cons, h]

theorem getL_delL_same (k : κ) (l : List (κ × ν)) : getL k (delL k l) = none := by
  induction l with
  | nil => rfl
  | cons e t ih =>
    rw [delL_cons]
    by_cases h : e.1 = k
    · rw [if_pos h]; exact ih
    · rw [if_neg h]; simp only [getL, if_neg h]; exact ih

theorem getL_delL_ne {k k2 : κ} (l : List (κ × ν)) (h : k2 ≠ k) :
    getL k2 (delL k l) = getL k2 l := by
  induction l with
  | nil => rfl
  | cons e t ih =>
    rw [delL_cons]
    by_cases h1 : e.1 = k
    · have h2 : ¬ e.1 = k2 := fun h3 => h (h3.symm.trans h1)
      rw [if_pos h1]; simp only [getL, if_neg h2]; exact ih
    · rw [if_neg h1]
      by_cases h2 : e.1 = k2
      · simp only [getL, if_pos h2]
      · simp only [getL, if_neg h2]; exact ih

theorem getL_isSome_iff (k : κ) (l : List (κ × ν)) :
    (getL k l).isSome = true ↔ k ∈ l.map Prod.fst := by
  induction l with
  | nil => simp [getL]
  | cons e t ih =>
    by_cases h : e.1 = k
    · simp [getL, h]
    · have h2 : ¬ k = e.1 := fun h3 => h h3.symm
      simp [getL, h, h2, ih]

theorem delL_absent (k : κ) (l : List (κ × ν)) (h : getL k l = none) : delL k l = l := by
  induction l with
  | nil => rfl
  | cons e t ih =>
    rw [delL_cons]
    by_cases h1 : e.1 = k
    · simp [getL, h1] at h
    · simp only [getL, if_neg h1] at h
      rw [if_neg h1, ih h]

theorem get?_set_same (m : GoMap κ ν) (k : κ) (v : ν) : (m.set k v).get? k = some v :=
  getL_setL_same k v m.entries

theorem get?_set_ne (m : GoMap κ ν) {k k2 : κ} (v : ν) (h : k2 ≠ k) :
    (m.set k v).get? k2 = m.get? k2 :=
  getL_setL_ne v m.entries h

theorem get?_delete_same (m : GoMap κ ν) (k : κ) : (m.delete k).get? k = none :=
  getL_delL_same k m.entries

theorem get?_delete_ne (m : GoMap κ ν) {k k2 : κ} (h : k2 ≠ k) :
    (m.delete k).get? k2 = m.get? k2 :=
  getL_delL_ne m.entries h

theorem delete_absent (m : GoMap κ ν) (k : κ) (h : m.get? k = none) : m.delete k = m :=
  ext_entries (delL_absent k m.entries h)

end GoMap

/-! ## Membership operations of a Record -/

namespace ChainStore

theorem HasNamespace_after_AddNamespace (p : StateUpdater) (ns : String) :
    ((p.AddNamespace ns).2.HasNamespace ns).1 = true := by
  unfold StateUpdater.AddNamespace StateUpdater.HasNamespace
  by_cases h : (p.namespaces.get? ns).isSome = true
  · simp [h]
  · simp [h, GoMap.get?_set_same]

theorem HasNamespace_AddNamespace_other (q : StateUpdater) {m n : String} (h : n ≠ m) :
    ((q.AddNamespace m).2.HasNamespace n).1 = (q.HasNamespace n).1 := by
  unfold StateUpdater.AddNamespace StateUpdater.HasNamespace
  by_cases hm : (q.namespaces.get? m).isSome = true
  · simp [hm]
  · simp [hm, GoMap.get?_set_ne _ _ h]

theorem HasNamespace_DelNamespace_other (q : StateUpdater) {m n : String} (h : n ≠ m) :
    ((q.DelNamespace m).2.HasNamespace n).1 = (q.HasNamespace n).1 := by
  unfold StateUpdater.DelNamespace StateUpdater.HasNamespace
  by_cases hm : (q.namespaces.get? m).isSome = true
  · simp [hm, GoMap.get?_delete_ne _ h]
  · simp [hm]

/-- C3. `AddNamespace(ns)` returns true exactly when `ns` was absent before the call; after
the call `ns` is present in both cases; when it returns false the Record is unchanged; and on
a Record without `ns`, a first call returns true and a second call in a row returns false and
leaves the Record as the first call left it. -/
theorem AddNamespace_spec (p : StateUpdater) (ns : String) :
    ((p.AddNamespace ns).1 = true ↔ (p.HasNamespace ns).1 = false) ∧
    ((p.AddNamespace ns).2.HasNamespace ns).1 = true ∧
    ((p.AddNamespace ns).1 = false → (p.AddNamespace ns).2 = p) ∧
    ((p.HasNamespace ns).1 = false →
      (p.AddNamespace ns).1 = true ∧
      (p.AddNamespace ns).2.AddNamespace ns = (false, (p.AddNamespace ns).2)) := by
  unfold StateUpdater.AddNamespace StateUpdater.HasNamespace
  by_cases h : (p.namespaces.get? ns).isSome = true
  · simp [h]
  · simp [h, GoMap.get?_set_same]

/-- C4. `DelNamespace(ns)` returns true exactly when `ns` was present before the call; after
the call `HasNamespace(ns)` is false in both cases; when `ns` was absent the call returns
false and leaves the Record unchanged; the membership of every other namespace is unchanged. -/
theorem DelNamespace_spec (p : StateUpdater) (ns : String) :
    ((p.DelNamespace ns).1 = true ↔ (p.HasNamespace ns).1 = true) ∧
    ((p.DelNamespace ns).2.HasNamespace ns).1 = false ∧
    ((p.HasNamespace ns).1 = false → p.DelNamespace ns = (false, p)) ∧
    (∀ m : String, m ≠ ns →
      ((p.DelNamespace ns).2.HasNamespace m).1 = (p.HasNamespace m).1) := by
  unfold StateUpdater.DelNamespace StateUpdater.HasNamespace
  by_cases h : (p.namespaces.get? ns).isSome = true
  · simp only [h, not_true_eq_false, if_false, true_iff, GoMap.get?_delete_same]
    refine ⟨trivial, rfl, fun h2 => absurd h2 (by simp), fun m hm => ?_⟩
    simp [GoMap.get?_delete_ne _ hm]
  · simp [h]

end ChainStore

namespace ChainStore

theorem HasNamespace_run_keeps (q : StateUpdater) (n : String) (c : Call)
    (hc : c ≠ Call.del n) (hq : (q.HasNamespace n).1 = true) :
    ((c.run q).2.HasNamespace n).1 = true := by
  cases c with
  | has m => exact hq
  | add m =>
    by_cases h : n = m
    · subst h; exact HasNamespace_after_AddNamespace q n
    · simp only [Call.run]; rw [HasNamespace_AddNamespace_other q h]; exact hq
  | del m =>
    have h : n ≠ m := fun h => hc (by rw [h])
    simp only [Call.run]; rw [HasNamespace_DelNamespace_other q h]; exact hq

theorem HasNamespace_runCalls_keeps (n : String) (calls : List Call) :
    ∀ q : StateUpdater, Call.del n ∉ calls → (q.HasNamespace n).1 = true →
      ((runCalls q calls).HasNamespace n).1 = true := by
  induction calls with
  | nil => intro q _ hq; exact hq
  | cons c cs ih =>
    intro q hno hq
    have hc : c ≠ Call.del n := fun h => hno (by simp [h])
    have hcs : Call.del n ∉ cs := fun h => hno (List.mem_cons_of_mem c h)
    exact ih (c.run q).2 hcs (HasNamespace_run_keeps q n c hc hq)

/-- C5. After `AddNamespace(n)` on any Record (a successful call included), `HasNamespace(n)`
is true after each call of every sequence of `AddNamespace`, `DelNamespace` and `HasNamespace` calls that contains no
`DelNamespace(n)`: it is true after the first `k` calls, for every `k`. -/
theorem HasNamespace_until_DelNamespace (p : StateUpdater) (n : String) (calls : List Call)
    (hno : Call.del n ∉ calls) (k : Nat) :
    ((runCalls (p.AddNamespace n).2 (calls.take k)).HasNamespace n).1 = true :=
  HasNamespace_runCalls_keeps n (calls.take k) (p.AddNamespace n).2
    (fun h => hno (List.mem_of_mem_take h)) (HasNamespace_after_AddNamespace p n)

/-- C5, at a concrete input: a Record without namespaces, then `AddNamespace("finance")`,
then four calls on other namespaces or re-adding `finance`. -/
theorem HasNamespace_until_DelNamespace_witness :
    ((NewStateUpdater { X := 1, Y := 2 } []).AddNamespace "finance").1 = true ∧
    Call.del "finance" ∉
      [Call.add "hr", Call.has "finance", Call.del "hr", Call.add "finance"] ∧
    ((runCalls ((NewStateUpdater { X := 1, Y := 2 } []).AddNamespace "finance").2
      ([Call.add "hr", Call.has "finance", Call.del "hr", Call.add "finance"].take 3)).HasNamespace
        "finance").1 = true :=
  ⟨by decide, by decide,
    HasNamespace_until_DelNamespace (NewStateUpdater { X := 1, Y := 2 } []) "finance"
      [Call.add "hr", Call.has "finance", Call.del "hr", Call.add "finance"]
      (by decide) 3⟩

end ChainStore

/-! ## Registry: derived key, insertion and lookup -/

namespace GoMap

variable {κ ν : Type} [DecidableEq κ]

theorem setL_of_getL {k : κ} {v : ν} (l : List (κ × ν)) (h : getL k l = some v) :
    setL k v l = l := by
  induction l with
  | nil => simp [getL] at h
  | cons e t ih =>
    by_cases h1 : e.1 = k
    · simp only [getL, if_pos h1, Option.some.injEq] at h
      simp only [setL, if_pos h1]
      rw [← h1, ← h]
    · simp only [getL, if_neg h1] at h
      simp only [setL, if_neg h1, ih h]

theorem set_of_get? (m : GoMap κ ν) {k : κ} {v : ν} (h : m.get? k = some v) :
    m.set k v = m :=
  ext_entries (setL_of_getL m.entries h)

theorem get?_eq_none_iff (m : GoMap κ ν) (k : κ) : m.get? k = none ↔ k ∉ m.keys := by
  have h := getL_isSome_iff k m.entries
  unfold get? keys
  rw [← h]
  cases getL k m.entries <;> simp

end GoMap

namespace ChainStore

/-- C6. `GetPubKeyId` is not injective on keys with coordinates below 2^256: the keys
(X = 0x1, Y = 0x23) and (X = 0x12, Y = 0x3) differ, and both get the string "123", because
`%x` writes each coordinate without padding to a fixed width. -/
theorem GetPubKeyId_collision :
    ({ X := 0x1, Y := 0x23 } : crypto.PubKey) ≠ { X := 0x12, Y := 0x3 } ∧
    (0 ≤ (0x1 : Int) ∧ (0x1 : Int) < 2 ^ 256 ∧ 0 ≤ (0x23 : Int) ∧ (0x23 : Int) < 2 ^ 256) ∧
    (0 ≤ (0x12 : Int) ∧ (0x12 : Int) < 2 ^ 256 ∧ 0 ≤ (0x3 : Int) ∧ (0x3 : Int) < 2 ^ 256) ∧
    StateUpdaterMgr.GetPubKeyId { states := GoMap.empty } { X := 0x1, Y := 0x23 } = "123" ∧
    StateUpdaterMgr.GetPubKeyId { states := GoMap.empty } { X := 0x12, Y := 0x3 } = "123" := by
  refine ⟨by decide, by norm_num, by norm_num, by decide, by decide⟩

/-- C8. After `AddStateUpdater(r)`, `GetStateUpdater` returns `r` for the identity of `r`
(and for every identity with the same derived key), whatever was stored under that key
before; for an identity with a different derived key the result is what it was before;
`GetStateUpdater(id)` is nil exactly when the derived key of `id` is not a key of the
registry; and `GetStateUpdater` leaves the registry as it was. -/
theorem AddStateUpdater_GetStateUpdater (p : StateUpdaterMgr) (r : StateUpdater) :
    ((p.AddStateUpdater r).GetStateUpdater r.PubKey).1 = some r ∧
    (∀ id : crypto.PubKey, p.GetPubKeyId id = p.GetPubKeyId r.PubKey →
      ((p.AddStateUpdater r).GetStateUpdater id).1 = some r) ∧
    (∀ id : crypto.PubKey, p.GetPubKeyId id ≠ p.GetPubKeyId r.PubKey →
      ((p.AddStateUpdater r).GetStateUpdater id).1 = (p.GetStateUpdater id).1) ∧
    (∀ id : crypto.PubKey,
      (p.GetStateUpdater id).1 = none ↔ p.GetPubKeyId id ∉ p.states.keys) ∧
    (∀ id : crypto.PubKey, (p.GetStateUpdater id).2 = p) := by
  refine ⟨?_, ?_, ?_, ?_, fun _ => rfl⟩
  · exact GoMap.get?_set_same _ _ _
  · intro id h
    show (p.states.set (p.GetPubKeyId r.PubKey) r).get? (p.GetPubKeyId id) = some r
    rw [h]; exact GoMap.get?_set_same _ _ _
  · intro id h
    exact GoMap.get?_set_ne _ _ h
  · intro id
    exact GoMap.get?_eq_none_iff _ _

/-- C9. `StateUpdaterMgr.HasNamespace(id, ns)` is false when `GetStateUpdater(id)` is nil;
otherwise it is `HasNamespace(ns)` of the Record that `GetStateUpdater(id)` returns; and the
registry, with every Record in it, is afterwards what it was before. -/
theorem StateUpdaterMgr_HasNamespace_spec (p : StateUpdaterMgr) (id : crypto.PubKey)
    (ns : String) :
    ((p.GetStateUpdater id).1 = none → (p.HasNamespace id ns).1 = false) ∧
    (∀ state : StateUpdater, (p.GetStateUpdater id).1 = some state →
      (p.HasNamespace id ns).1 = (state.HasNamespace ns).1) ∧
    (p.HasNamespace id ns).2 = p := by
  unfold StateUpdaterMgr.HasNamespace StateUpdaterMgr.GetStateUpdater
  cases h : p.states.get? (p.GetPubKeyId id) with
  | none => simp
  | some state =>
    simp only [reduceCtorEq, false_implies, Option.some.injEq, true_and]
    refine ⟨fun s hs => by rw [hs], ?_⟩
    show ({ states := p.states.set (p.GetPubKeyId id) state } : StateUpdaterMgr) = p
    rw [GoMap.set_of_get? _ h]

end ChainStore

/-! ## The collaborators of the specification round-trip -/

namespace serialization

theorem takeN_append (x tail : Bytes) : takeN x.length (x ++ tail) = some (x, tail) := by
  induction x with
  | nil => cases tail <;> rfl
  | cons b t ih => simp [takeN, ih]

theorem length_leBytes (w n : Nat) : (leBytes w n).length = w := by
  induction w generalizing n with
  | zero => rfl
  | succ w ih => simp [leBytes, ih]

theorem leVal_leBytes (w n : Nat) : leVal (leBytes w n) = n % 256 ^ w := by
  induction w generalizing n with
  | zero => simp [leBytes, leVal, Nat.mod_one]
  | succ w ih =>
    simp only [leBytes, leVal, ih]
    rw [pow_succ', Nat.mod_mul]
    rfl

theorem takeN_leBytes (w n : Nat) (tail : Bytes) :
    takeN w (leBytes w n ++ tail) = some (leBytes w n, tail) := by
  have h := takeN_append (leBytes w n) tail
  rwa [length_leBytes] at h

theorem ReadUint32_WriteUint32 (n : Nat) (h : n < 2 ^ 32) (tail : Bytes) :
    ReadUint32 ((WriteUint32 n).1 ++ tail) = Except.ok (n, tail) := by
  simp only [ReadUint32, WriteUint32, takeN_leBytes, leVal_leBytes]
  rw [Nat.mod_eq_of_lt (by simpa using h)]

theorem ReadVarBytes_WriteVarBytes (x : Bytes) (h : x.length < 2 ^ 32) (tail : Bytes) :
    ReadVarBytes ((WriteVarBytes x).1 ++ tail) = Except.ok (x, tail) := by
  have h1 : ReadUint32 (leBytes 4 x.length ++ (x ++ tail)) = Except.ok (x.length, x ++ tail) :=
    ReadUint32_WriteUint32 x.length h (x ++ tail)
  simp only [ReadVarBytes, WriteVarBytes, Nat.mod_eq_of_lt h, List.append_assoc, h1,
    takeN_append]

theorem bytesString_stringBytes (s : String) (h : ∀ ch ∈ s.toList, ch.toNat < 256) :
    bytesString (stringBytes s) = s := by
  apply String.ext
  simp only [bytesString, stringBytes, List.map_map]
  show List.map _ s.data = s.data
  have h2 : ∀ ch ∈ s.data, ((fun x : Byte => Char.ofNat x.val) ∘
      (fun ch : Char => (Fin.ofNat ch.toNat : Byte))) ch = ch := by
    intro ch hch
    have h3 : ch.toNat % 256 = ch.toNat := Nat.mod_eq_of_lt (h ch hch)
    show Char.ofNat (ch.toNat % 256) = ch
    rw [h3, Char.ofNat_toNat]
  rw [List.map_congr_left h2]
  exact List.map_id _

theorem ReadVarString_WriteVarString (s : String) (h : ∀ ch ∈ s.toList, ch.toNat < 256)
    (hlen : s.length < 2 ^ 32) (tail : Bytes) :
    ReadVarString ((WriteVarString s).1 ++ tail) = Except.ok (s, tail) := by
  have hl : (stringBytes s).length < 2 ^ 32 := by
    simpa [stringBytes] using hlen
  simp only [ReadVarString, WriteVarString, ReadVarBytes_WriteVarBytes _ hl,
    bytesString_stringBytes s h]

end serialization

namespace crypto

theorem DeSerialize_Serialize (k : PubKey)
    (h : 0 ≤ k.X ∧ k.X < 2 ^ 256 ∧ 0 ≤ k.Y ∧ k.Y < 2 ^ 256) (tail : Bytes) :
    PubKey.DeSerialize ((PubKey.Serialize k).1 ++ tail) = Except.ok (k, tail) := by
  obtain ⟨hx0, hx, hy0, hy⟩ := h
  have hX : k.X.toNat % 256 ^ 32 = k.X.toNat := Nat.mod_eq_of_lt (by omega)
  have hY : k.Y.toNat % 256 ^ 32 = k.Y.toNat := Nat.mod_eq_of_lt (by omega)
  simp only [PubKey.DeSerialize, PubKey.Serialize, hx0, hx, hy0, hy, and_self, if_true,
    List.append_assoc, serialization.takeN_leBytes, serialization.leVal_leBytes, hX, hY,
    Int.ofNat_eq_coe, Int.toNat_of_nonneg hx0, Int.toNat_of_nonneg hy0]

end crypto

theorem specCollab_ReadsBackUint32 (n : Nat) (h : n < 2 ^ 32) : specCollab.ReadsBackUint32 n :=
  fun tail => serialization.ReadUint32_WriteUint32 n h tail

theorem specCollab_ReadsBackVarBytes (x : Bytes) (h : x.length < 2 ^ 32) :
    specCollab.ReadsBackVarBytes x :=
  fun tail => serialization.ReadVarBytes_WriteVarBytes x h tail

theorem specCollab_ReadsBackVarString (s : String) (h : ∀ ch ∈ s.toList, ch.toNat < 256)
    (hlen : s.length < 2 ^ 32) : specCollab.ReadsBackVarString s :=
  fun tail => serialization.ReadVarString_WriteVarString s h hlen tail

theorem specCollab_ReadsBackPubKey (k : crypto.PubKey)
    (h : 0 ≤ k.X ∧ k.X < 2 ^ 256 ∧ 0 ≤ k.Y ∧ k.Y < 2 ^ 256) : specCollab.ReadsBackPubKey k :=
  fun tail => crypto.DeSerialize_Serialize k h tail

/-! ## Action payload: round trip -/

namespace payload

/-- C2. For every payload `p` (any action byte, Add and Sub included, and any Namespace and
Cert, empty or not) on which the codecs read back what they wrote: `Serialize` at version 0
into a writer that accepts every write writes `Data` without error, and `Deserialize` at
version 0 of these bytes, whatever follows them and whatever the receiver held, succeeds,
leaves exactly what follows them, and makes the receiver equal to `p` (Namespace, PubKey,
Action and Cert). -/
theorem Deserialize_Serialize (c : Collab) (p self : StateUpdater) (tail : Bytes)
    (hns : c.ReadsBackVarBytes p.Namespace) (hpk : c.ReadsBackPubKey p.PubKey)
    (hcert : c.ReadsBackVarBytes p.Cert) :
    p.Serialize c bufferWrite StateUpdaterPayloadVersion =
      (p.Data c StateUpdaterPayloadVersion, none) ∧
    StateUpdater.Deserialize c self
        ((p.Serialize c bufferWrite StateUpdaterPayloadVersion).1 ++ tail)
        StateUpdaterPayloadVersion =
      (Except.ok tail, p) := by
  refine ⟨rfl, ?_⟩
  have h1 := hns ((c.PubKeySerialize p.PubKey).1 ++ (p.Action :: ((c.WriteVarBytes p.Cert).1 ++ tail)))
  have h2 := hpk (p.Action :: ((c.WriteVarBytes p.Cert).1 ++ tail))
  have h3 := hcert tail
  have hd : (p.Serialize c bufferWrite StateUpdaterPayloadVersion).1 ++ tail =
      (c.WriteVarBytes p.Namespace).1 ++ ((c.PubKeySerialize p.PubKey).1 ++
        (p.Action :: ((c.WriteVarBytes p.Cert).1 ++ tail))) := by
    simp [StateUpdater.Serialize, bufferWrite, StateUpdater.Data]
  rw [hd]
  simp only [StateUpdater.Deserialize, h1, h2, Read1, h3]

/-- C2, at the specification's example: namespace "finance", key (1, 2), action Add, empty
certificate, read into a receiver with other content, with one byte after the payload. -/
theorem Deserialize_Serialize_witness :
    specCollab.ReadsBackVarBytes financeAdd.Namespace ∧
    specCollab.ReadsBackPubKey financeAdd.PubKey ∧
    specCollab.ReadsBackVarBytes financeAdd.Cert ∧
    StateUpdater.Deserialize specCollab stale
        ((financeAdd.Serialize specCollab bufferWrite StateUpdaterPayloadVersion).1 ++ [7])
        StateUpdaterPayloadVersion =
      (Except.ok [7], financeAdd) :=
  have hns : specCollab.ReadsBackVarBytes financeAdd.Namespace :=
    specCollab_ReadsBackVarBytes _ (by simp [financeAdd, serialization.stringBytes])
  have hpk : specCollab.ReadsBackPubKey financeAdd.PubKey :=
    specCollab_ReadsBackPubKey _ (by norm_num [financeAdd])
  have hcert : specCollab.ReadsBackVarBytes financeAdd.Cert :=
    specCollab_ReadsBackVarBytes _ (by simp [financeAdd])
  ⟨hns, hpk, hcert, (Deserialize_Serialize specCollab financeAdd stale [7] hns hpk hcert).2⟩

end payload

/-! ## Registry decoding replaces the content -/

namespace ChainStore

theorem get?_foldl_AddStateUpdater (q : StateUpdaterMgr) (key : String)
    (states : List StateUpdater) :
    ∀ p : StateUpdaterMgr, (states.foldl StateUpdaterMgr.AddStateUpdater p).states.get? key =
      match lastWithKey q key states with
      | some later => some later
      | none => p.states.get? key := by
  induction states with
  | nil => intro p; rfl
  | cons state rest ih =>
    intro p
    rw [List.foldl_cons, ih (p.AddStateUpdater state)]
    simp only [lastWithKey]
    cases lastWithKey q key rest with
    | some later => rfl
    | none =>
      by_cases hk : q.GetPubKeyId state.PubKey = key
      · simp only [hk, if_true]
        rw [← hk]
        exact GoMap.get?_set_same _ _ _
      · simp only [hk, if_false]
        exact GoMap.get?_set_ne _ _ (fun h => hk h.symm)

theorem Deserialize_loop_ok (c : Collab) (n : Nat) :
    ∀ (r : Bytes) (p q : StateUpdaterMgr) (rest : Bytes),
      StateUpdaterMgr.Deserialize.loop c n r p = (Except.ok rest, q) →
      ∃ states : List StateUpdater, decodeRecords c n r = Except.ok (states, rest) ∧
        states.length = n ∧ q = states.foldl StateUpdaterMgr.AddStateUpdater p := by
  induction n with
  | zero =>
    intro r p q rest h
    simp only [StateUpdaterMgr.Deserialize.loop, Prod.mk.injEq, Except.ok.injEq] at h
    exact ⟨[], by simp [decodeRecords, h.1], rfl, h.2.symm⟩
  | succ n ih =>
    intro r p q rest h
    simp only [StateUpdaterMgr.Deserialize.loop] at h
    rcases hd : StateUpdater.Deserialize c StateUpdater.new r with ⟨res, state⟩
    rw [hd] at h
    cases res with
    | error err => simp at h
    | ok r1 =>
      simp only at h
      obtain ⟨states, h1, h2, h3⟩ := ih r1 (p.AddStateUpdater state) q rest h
      exact ⟨state :: states, by simp [decodeRecords, hd, h1], by simp [h2], by simp [h3]⟩

/-- C10, as amended. For every registry, whatever it holds, and every input on which
`StateUpdaterMgr.Deserialize` succeeds: the input holds a count and that many Records, and
the registry afterwards holds, under every key, the last of the decoded Records whose
identity derives that key, and nothing under a key that no decoded Record derives; nothing
of the prior content is kept. -/
theorem Deserialize_replaces (c : Collab) (p q : StateUpdaterMgr) (r rest : Bytes)
    (h : p.Deserialize c r = (Except.ok rest, q)) :
    ∃ (count : Nat) (r1 : Bytes) (states : List StateUpdater),
      c.ReadUint32 r = Except.ok (count, r1) ∧
      decodeRecords c count r1 = Except.ok (states, rest) ∧
      states.length = count ∧
      ∀ key : String, q.states.get? key = lastWithKey q key states := by
  unfold StateUpdaterMgr.Deserialize at h
  cases hc : c.ReadUint32 r with
  | error err => rw [hc] at h; simp at h
  | ok v =>
    obtain ⟨count, r1⟩ := v
    rw [hc] at h
    obtain ⟨states, h1, h2, h3⟩ := Deserialize_loop_ok c count r1 _ q rest h
    refine ⟨count, r1, states, rfl, h1, h2, fun key => ?_⟩
    rw [h3, get?_foldl_AddStateUpdater (states.foldl StateUpdaterMgr.AddStateUpdater _) key states]
    cases lastWithKey _ key states <;> rfl

set_option maxRecDepth 100000 in
/-- C10, at a concrete input: the count 2 and two Records of the same key, read into a
registry that holds a Record of another key. -/
theorem Deserialize_replaces_witness :
    priorRegistry.Deserialize specCollab sameKeyInput = (Except.ok [], hrRegistry) ∧
    ∃ (count : Nat) (r1 : Bytes) (states : List StateUpdater),
      specCollab.ReadUint32 sameKeyInput = Except.ok (count, r1) ∧
      decodeRecords specCollab count r1 = Except.ok (states, []) ∧
      states.length = count ∧
      ∀ key : String, hrRegistry.states.get? key = lastWithKey hrRegistry key states :=
  ⟨by decide,
    Deserialize_replaces specCollab priorRegistry hrRegistry sameKeyInput [] (by decide)⟩

set_option maxRecDepth 100000 in
/-- C10 as stated fails: on the input with the count 2 and two Records of the same key,
`Deserialize` succeeds, the Records decoded are the one with "finance" and the one with
"hr", and the registry afterwards holds the second alone: the first decoded Record is not
in it. -/
theorem Deserialize_drops_decoded_record :
    (priorRegistry.Deserialize specCollab sameKeyInput).1 = Except.ok [] ∧
    decodeRecords specCollab 2 (sameKeyInput.drop 4) =
      Except.ok ([financeRecord, hrRecord], []) ∧
    financeRecord ∉ (priorRegistry.Deserialize specCollab sameKeyInput).2.states.values ∧
    (priorRegistry.Deserialize specCollab sameKeyInput).2.states.values = [hrRecord] := by
  decide

end ChainStore

/-! ## The registry that `NewStateUpdaterMgr` builds -/

namespace ChainStore

theorem NewStateUpdater_loop_isSome (names : List String) :
    ∀ (ns : GoMap String String) (s : String),
      ((NewStateUpdater.loop names ns).get? s).isSome = true ↔
        (s ∈ names ∧ s ≠ "") ∨ (ns.get? s).isSome = true := by
  induction names with
  | nil => intro ns s; simp [NewStateUpdater.loop]
  | cons name rest ih =>
    intro ns s
    by_cases h : name = ""
    · simp only [NewStateUpdater.loop, if_pos h, ih, List.mem_cons]
      constructor
      · rintro (⟨h1, h2⟩ | h1)
        · exact Or.inl ⟨Or.inr h1, h2⟩
        · exact Or.inr h1
      · rintro (⟨h1 | h1, h2⟩ | h1)
        · exact absurd (h1.trans h) h2
        · exact Or.inl ⟨h1, h2⟩
        · exact Or.inr h1
    · simp only [NewStateUpdater.loop, if_neg h, ih, List.mem_cons]
      by_cases hs : s = name
      · subst hs
        simp [GoMap.get?_set_same, h]
      · rw [GoMap.get?_set_ne _ _ hs]
        constructor
        · rintro (⟨h1, h2⟩ | h1)
          · exact Or.inl ⟨Or.inr h1, h2⟩
          · exact Or.inr h1
        · rintro (⟨h1 | h1, h2⟩ | h1)
          · exact absurd h1 hs
          · exact Or.inl ⟨h1, h2⟩
          · exact Or.inr h1

/-- The namespaces of the Record that `NewStateUpdater` builds are the non-empty names of
the list. -/
theorem NewStateUpdater_HasNamespace (pubkey : crypto.PubKey) (names : List String)
    (s : String) :
    ((NewStateUpdater pubkey names).HasNamespace s).1 = true ↔ s ∈ names ∧ s ≠ "" := by
  have h := NewStateUpdater_loop_isSome names GoMap.empty s
  simp only [GoMap.get?, GoMap.empty, GoMap.getL, Option.isSome_none, Bool.false_eq_true,
    or_false] at h
  exact h

theorem NewStateUpdaterMgr_loop_get? (q : StateUpdaterMgr) (key : String)
    (entries : List (crypto.PubKey × List String)) :
    ∀ mgr : StateUpdaterMgr,
      (NewStateUpdaterMgr.loop entries mgr).states.get? key =
        match lastEntryWithKey q key entries with
        | some entry => some (NewStateUpdater entry.1 entry.2)
        | none => mgr.states.get? key := by
  induction entries with
  | nil => intro mgr; rfl
  | cons entry rest ih =>
    intro mgr
    obtain ⟨pubkey, namespaces⟩ := entry
    simp only [NewStateUpdaterMgr.loop, lastEntryWithKey]
    rw [ih]
    cases lastEntryWithKey q key rest with
    | some later => rfl
    | none =>
      by_cases hk : q.GetPubKeyId pubkey = key
      · simp only [hk, if_true]
        rw [← hk]
        exact GoMap.get?_set_same _ _ _
      · simp only [hk, if_false]
        exact GoMap.get?_set_ne _ _ (fun h => hk h.symm)

/-- What `NewStateUpdaterMgr` builds, for every initial mapping in every order of visit:
under a key the registry holds the Record that `NewStateUpdater` builds from the last entry
whose identity derives this key, and nothing under a key that no entry derives. -/
theorem NewStateUpdaterMgr_get? (entries : List (crypto.PubKey × List String))
    (key : String) :
    (NewStateUpdaterMgr entries).states.get? key =
      (lastEntryWithKey (NewStateUpdaterMgr entries) key entries).map (fun entry =>
        NewStateUpdater entry.1 entry.2) := by
  unfold NewStateUpdaterMgr
  rw [NewStateUpdaterMgr_loop_get? (NewStateUpdaterMgr.loop entries { states := GoMap.empty })
    key entries]
  cases lastEntryWithKey _ key entries <;> rfl

theorem lastEntryWithKey_eq_none (q : StateUpdaterMgr) (key : String)
    (entries : List (crypto.PubKey × List String)) :
    lastEntryWithKey q key entries = none ↔ ∀ e ∈ entries, q.GetPubKeyId e.1 ≠ key := by
  induction entries with
  | nil => simp [lastEntryWithKey]
  | cons entry rest ih =>
    simp only [lastEntryWithKey, List.mem_cons, forall_eq_or_imp]
    cases hl : lastEntryWithKey q key rest with
    | some later =>
      rw [hl] at ih
      simp only [reduceCtorEq, false_iff] at ih ⊢
      exact fun h => ih h.2
    | none =>
      rw [hl] at ih
      have hrest := ih.mp rfl
      by_cases hk : q.GetPubKeyId entry.1 = key
      · simp [hk]
      · simp only [hk, if_false, true_iff]
        exact ⟨fun h => hk h, hrest⟩

theorem lastEntryWithKey_append (q : StateUpdaterMgr) (key : String)
    (before after : List (crypto.PubKey × List String)) :
    lastEntryWithKey q key (before ++ after) =
      match lastEntryWithKey q key after with
      | some later => some later
      | none => lastEntryWithKey q key before := by
  induction before with
  | nil => simp only [List.nil_append, lastEntryWithKey]; cases lastEntryWithKey q key after <;> rfl
  | cons entry rest ih =>
    show lastEntryWithKey q key (entry :: (rest ++ after)) = _
    simp only [lastEntryWithKey]
    rw [ih]
    cases lastEntryWithKey q key after <;> rfl

/-- C7, as amended. For every initial mapping, in every order of visit: for each entry
(id, names) that no entry visited later shares its derived key with, `GetStateUpdater(id)`
returns a Record whose Identity is `id` and whose namespaces are exactly the non-empty
strings of `names`; the keys of the registry are exactly the derived keys of the entries,
each held once, so the registry holds one Record per distinct derived key and no others. -/
theorem NewStateUpdaterMgr_last_entry_wins (entries : List (crypto.PubKey × List String)) :
    (∀ (before after : List (crypto.PubKey × List String)) (id : crypto.PubKey)
        (names : List String),
      entries = before ++ (id, names) :: after →
      (∀ e ∈ after, (NewStateUpdaterMgr entries).GetPubKeyId e.1 ≠
        (NewStateUpdaterMgr entries).GetPubKeyId id) →
      ∃ state : StateUpdater,
        ((NewStateUpdaterMgr entries).GetStateUpdater id).1 = some state ∧
        state.PubKey = id ∧
        ∀ s : String, (state.HasNamespace s).1 = true ↔ s ∈ names ∧ s ≠ "") ∧
    (∀ key : String, key ∈ (NewStateUpdaterMgr entries).states.keys ↔
      ∃ e ∈ entries, (NewStateUpdaterMgr entries).GetPubKeyId e.1 = key) ∧
    (NewStateUpdaterMgr entries).states.keys.Nodup := by
  refine ⟨?_, ?_, (NewStateUpdaterMgr entries).states.nodupKeys⟩
  · intro before after id names he hafter
    subst he
    refine ⟨NewStateUpdater id names, ?_, rfl, fun s => NewStateUpdater_HasNamespace id names s⟩
    show (NewStateUpdaterMgr (before ++ (id, names) :: after)).states.get? _ = _
    rw [NewStateUpdaterMgr_get?]
    have hnone := (lastEntryWithKey_eq_none _ _ after).mpr hafter
    rw [lastEntryWithKey_append]
    simp only [lastEntryWithKey, hnone, if_true]
    rfl
  · intro key
    have h1 := GoMap.get?_eq_none_iff (NewStateUpdaterMgr entries).states key
    have h2 := lastEntryWithKey_eq_none (NewStateUpdaterMgr entries) key entries
    rw [NewStateUpdaterMgr_get?] at h1
    constructor
    · intro hk
      by_contra hne
      have hall : ∀ e ∈ entries, (NewStateUpdaterMgr entries).GetPubKeyId e.1 ≠ key :=
        fun e he heq => hne ⟨e, he, heq⟩
      have hn := h2.mpr hall
      rw [hn] at h1
      exact (h1.mp rfl) hk
    · rintro ⟨e, he, heq⟩
      by_contra hk
      have hn := h1.mpr hk
      have hl : lastEntryWithKey (NewStateUpdaterMgr entries) key entries = none := by
        cases hc : lastEntryWithKey (NewStateUpdaterMgr entries) key entries with
        | none => rfl
        | some x => rw [hc] at hn; simp at hn
      exact (h2.mp hl) e he heq

set_option maxRecDepth 100000 in
/-- C7, at concrete inputs: in the specification's example `{A: ["finance","hr"], B: []}`
the entry of `A`, visited first, is found with its identity and its two namespaces; among
two entries of the identity `A`, the one visited last is found. -/
theorem NewStateUpdaterMgr_last_entry_wins_witness :
    (∃ state : StateUpdater,
      (registryAB.GetStateUpdater keyA).1 = some state ∧ state.PubKey = keyA ∧
      ∀ s : String, (state.HasNamespace s).1 = true ↔ s ∈ ["finance", "hr"] ∧ s ≠ "") ∧
    (∃ state : StateUpdater,
      (registryTwice.GetStateUpdater keyA).1 = some state ∧ state.PubKey = keyA ∧
      ∀ s : String, (state.HasNamespace s).1 = true ↔ s ∈ ["hr"] ∧ s ≠ "") ∧
    registryAB.pairs = [(keyA, ["finance", "hr"]), (keyB, [])] :=
  ⟨(NewStateUpdaterMgr_last_entry_wins
      [(keyA, ["finance", "hr"]), (keyB, [])]).1 [] [(keyB, [])] keyA ["finance", "hr"] rfl
      (by decide),
    (NewStateUpdaterMgr_last_entry_wins
      [(keyA, ["finance"]), (keyA, ["hr"])]).1 [(keyA, ["finance"])] [] keyA ["hr"] rfl
      (by decide),
    by decide⟩

set_option maxRecDepth 100000 in
/-- C7 as stated fails on an initial mapping with two entries of one identity, `A` with
"finance" and `A` with "hr": the registry holds one Record, the one of the entry visited
last, so for the entry visited first `GetStateUpdater(A)` returns a Record without the
namespace of that entry; this in both orders of visit. -/
theorem NewStateUpdaterMgr_overwrites_entry :
    (registryTwice.GetStateUpdater keyA).1 = some (NewStateUpdater keyA ["hr"]) ∧
    ((NewStateUpdater keyA ["hr"]).HasNamespace "finance").1 = false ∧
    (registryTwiceReversed.GetStateUpdater keyA).1 = some (NewStateUpdater keyA ["finance"]) ∧
    ((NewStateUpdater keyA ["finance"]).HasNamespace "hr").1 = false ∧
    registryTwice.states.len = 1 ∧ registryTwiceReversed.states.len = 1 := by
  decide

end ChainStore

/-! ## Registry round trip, for registries whose Records sit under their own keys -/

namespace GoMap

variable {κ ν : Type} [DecidableEq κ]

theorem setL_of_not_mem (k : κ) (v : ν) (l : List (κ × ν)) (h : k ∉ l.map Prod.fst) :
    setL k v l = l ++ [(k, v)] := by
  induction l with
  | nil => rfl
  | cons e t ih =>
    simp only [List.map_cons, List.mem_cons, not_or] at h
    have h1 : ¬ e.1 = k := fun h2 => h.1 h2.symm
    simp only [setL, if_neg h1, ih h.2, List.cons_append]

theorem foldl_setL_append (f : ν → κ) (l : List ν) :
    ∀ acc : List (κ × ν), ((acc.map Prod.fst) ++ l.map f).Nodup →
      l.foldl (fun m v => setL (f v) v m) acc = acc ++ l.map (fun v => (f v, v)) := by
  induction l with
  | nil => intro acc _; simp
  | cons v t ih =>
    intro acc h
    have hv : f v ∉ acc.map Prod.fst := by
      intro hmem
      have := (List.nodup_append.mp h).2.2
      exact this hmem (by simp)
    rw [List.foldl_cons, setL_of_not_mem _ _ _ hv, ih]
    · simp
    · simpa [List.map_append, List.append_assoc] using h

end GoMap

theorem Written.andThen_ok (first : Written) (wrap : Error → Error) (next : Written)
    (h : first.2 = none) : first.andThen wrap next = (first.1 ++ next.1, next.2) := by
  unfold Written.andThen
  rw [h]

namespace ChainStore

theorem entries_foldl_set (keys : List String) :
    ∀ acc : GoMap String String,
      (keys.foldl (fun m k => m.set k k) acc).entries =
        keys.foldl (fun l k => GoMap.setL k k l) acc.entries := by
  induction keys with
  | nil => intro acc; rfl
  | cons k t ih => intro acc; rw [List.foldl_cons, ih]; rfl

theorem Record_loops_round_trip (c : Collab) (keys : List String) :
    ∀ (acc : GoMap String String) (tail : Bytes),
      (∀ ns ∈ keys, (c.WriteVarString ns).2 = none ∧ c.ReadsBackVarString ns) →
      (StateUpdater.Serialize.loop c keys).2 = none ∧
      StateUpdater.Deserialize.loop c keys.length
          ((StateUpdater.Serialize.loop c keys).1 ++ tail) acc =
        Except.ok (keys.foldl (fun m k => m.set k k) acc, tail) := by
  induction keys with
  | nil => intro acc tail _; exact ⟨rfl, rfl⟩
  | cons k t ih =>
    intro acc tail h
    have hk := h k (List.mem_cons_self k t)
    have ht := ih (acc.set k k) tail (fun ns hns => h ns (List.mem_cons_of_mem k hns))
    simp only [StateUpdater.Serialize.loop, Written.andThen_ok _ _ _ hk.1, List.length_cons,
      StateUpdater.Deserialize.loop, List.append_assoc, hk.2 _, List.foldl_cons]
    exact ⟨ht.1, ht.2⟩

theorem SelfKeyed_entries (state : StateUpdater) (h : state.SelfKeyed) :
    state.namespaces.entries = state.namespaces.keys.map (fun k => (k, k)) := by
  unfold StateUpdater.SelfKeyed at h
  unfold GoMap.keys
  rw [List.map_map]
  have h2 : ∀ e ∈ state.namespaces.entries, ((fun k : String => (k, k)) ∘ Prod.fst) e = e := by
    intro e he
    show (e.1, e.1) = e
    exact Prod.ext rfl (h e he).symm
  rw [List.map_congr_left h2]
  exact (List.map_id _).symm

/-- Round trip of one Record: for every Record whose namespaces are stored under themselves,
with fewer than 2^32 of them, on which the codecs round-trip, `Serialize` succeeds and
`Deserialize` of what it wrote, whatever follows and whatever the receiver held, succeeds,
leaves what follows, and makes the receiver equal to the Record. -/
theorem Record_round_trip (c : Collab) (state self : StateUpdater) (tail : Bytes)
    (hself : state.SelfKeyed) (hlen : state.namespaces.len < 2 ^ 32)
    (hc : c.RoundTripsRecord state) :
    (state.Serialize c).2 = none ∧
    StateUpdater.Deserialize c self ((state.Serialize c).1 ++ tail) = (Except.ok tail, state) := by
  obtain ⟨⟨hpw, hpr⟩, ⟨huw, hur⟩, hns⟩ := hc
  have hloop := Record_loops_round_trip c state.namespaces.keys GoMap.empty tail hns
  have hcount : state.namespaces.keys.length = state.namespaces.len := by
    simp [GoMap.keys, GoMap.len]
  have hmod : state.namespaces.len % 2 ^ 32 = state.namespaces.len := Nat.mod_eq_of_lt hlen
  rw [hmod] at huw hur
  have hmap : state.namespaces.keys.foldl (fun m k => m.set k k) GoMap.empty =
      state.namespaces := by
    apply GoMap.ext_entries
    rw [entries_foldl_set]
    have hnd : ((([] : List (String × String)).map Prod.fst) ++
        state.namespaces.keys.map id).Nodup := by
      simpa [GoMap.keys] using state.namespaces.nodupKeys
    have := GoMap.foldl_setL_append id state.namespaces.keys [] hnd
    simp only [id, List.nil_append] at this
    show List.foldl (fun l k => GoMap.setL k k l) [] state.namespaces.keys = _
    rw [this, ← SelfKeyed_entries state hself]
  have hser : state.Serialize c =
      ((c.PubKeySerialize state.PubKey).1 ++ ((c.WriteUint32 state.namespaces.len).1 ++
        (StateUpdater.Serialize.loop c state.namespaces.keys).1),
       (StateUpdater.Serialize.loop c state.namespaces.keys).2) := by
    simp only [StateUpdater.Serialize, hmod, Written.andThen_ok _ _ _ hpw,
      Written.andThen_ok _ _ _ huw]
  rw [hser]
  refine ⟨hloop.1, ?_⟩
  simp only [StateUpdater.Deserialize, List.append_assoc, hpr _, hur _]
  rw [← hcount, hloop.2, hmap]

theorem Registry_loops_round_trip (c : Collab) (states : List StateUpdater) :
    ∀ (p : StateUpdaterMgr) (tail : Bytes),
      (∀ state ∈ states, state.SelfKeyed ∧ state.namespaces.len < 2 ^ 32 ∧
        c.RoundTripsRecord state) →
      (StateUpdaterMgr.Serialize.loop c states).2 = none ∧
      StateUpdaterMgr.Deserialize.loop c states.length
          ((StateUpdaterMgr.Serialize.loop c states).1 ++ tail) p =
        (Except.ok tail, states.foldl StateUpdaterMgr.AddStateUpdater p) := by
  induction states with
  | nil => intro p tail _; exact ⟨rfl, rfl⟩
  | cons state rest ih =>
    intro p tail h
    obtain ⟨h1, h2, h3⟩ := h state (List.mem_cons_self state rest)
    have ht := ih (p.AddStateUpdater state) tail
      (fun st hst => h st (List.mem_cons_of_mem state hst))
    have hrec := Record_round_trip c state StateUpdater.new
      ((StateUpdaterMgr.Serialize.loop c rest).1 ++ tail) h1 h2 h3
    simp only [StateUpdaterMgr.Serialize.loop, Written.andThen_ok _ _ _ hrec.1,
      List.length_cons, StateUpdaterMgr.Deserialize.loop, List.append_assoc, hrec.2,
      List.foldl_cons]
    exact ⟨ht.1, ht.2⟩

theorem entries_foldl_AddStateUpdater (q : StateUpdaterMgr) (states : List StateUpdater) :
    ∀ p : StateUpdaterMgr,
      (states.foldl StateUpdaterMgr.AddStateUpdater p).states.entries =
        states.foldl (fun l state => GoMap.setL (q.GetPubKeyId state.PubKey) state l)
          p.states.entries := by
  induction states with
  | nil => intro p; rfl
  | cons state rest ih => intro p; rw [List.foldl_cons, ih]; rfl

theorem Keyed_entries (g : StateUpdaterMgr) (h : g.Keyed) :
    g.states.entries = g.states.values.map (fun state => (g.GetPubKeyId state.PubKey, state)) := by
  unfold StateUpdaterMgr.Keyed at h
  unfold GoMap.values
  rw [List.map_map]
  have h2 : ∀ e ∈ g.states.entries,
      ((fun state : StateUpdater => (g.GetPubKeyId state.PubKey, state)) ∘ Prod.snd) e = e := by
    intro e he
    show (g.GetPubKeyId e.2.PubKey, e.2) = e
    exact Prod.ext (h e he).symm rfl
  rw [List.map_congr_left h2]
  exact (List.map_id _).symm

/-- Round trip of a registry: for every registry whose Records sit under the derived keys of
the identities they show, with fewer than 2^32 Records, on which the codecs round-trip,
`Serialize` succeeds and `Deserialize` of what it wrote, whatever follows and whatever the
receiver held, succeeds, leaves what follows, and makes the receiver equal to the registry. -/
theorem Registry_round_trip (c : Collab) (g p : StateUpdaterMgr) (tail : Bytes)
    (hkeyed : g.Keyed) (hlen : g.states.len < 2 ^ 32)
    (hcw : (c.WriteUint32 (g.states.len % 2 ^ 32)).2 = none)
    (hcr : c.ReadsBackUint32 (g.states.len % 2 ^ 32))
    (hrec : ∀ state ∈ g.states.values, state.SelfKeyed ∧ state.namespaces.len < 2 ^ 32 ∧
      c.RoundTripsRecord state) :
    (g.Serialize c).2 = none ∧
    p.Deserialize c ((g.Serialize c).1 ++ tail) = (Except.ok tail, g) := by
  have hloop := Registry_loops_round_trip c g.states.values { states := GoMap.empty } tail hrec
  have hcount : g.states.values.length = g.states.len := by
    simp [GoMap.values, GoMap.len]
  have hmod : g.states.len % 2 ^ 32 = g.states.len := Nat.mod_eq_of_lt hlen
  rw [hmod] at hcw hcr
  have hmap : g.states.values.foldl StateUpdaterMgr.AddStateUpdater { states := GoMap.empty } =
      g := by
    have he : (g.states.values.foldl StateUpdaterMgr.AddStateUpdater
        { states := GoMap.empty }).states = g.states := by
      apply GoMap.ext_entries
      rw [entries_foldl_AddStateUpdater g]
      have hk : g.states.values.map (fun state => g.GetPubKeyId state.PubKey) =
          g.states.entries.map Prod.fst := by
        conv_rhs => rw [Keyed_entries g hkeyed]
        rw [List.map_map]; rfl
      have hnd : ((([] : List (String × StateUpdater)).map Prod.fst) ++
          g.states.values.map (fun state => g.GetPubKeyId state.PubKey)).Nodup := by
        rw [hk]; simpa using g.states.nodupKeys
      have := GoMap.foldl_setL_append (fun state : StateUpdater => g.GetPubKeyId state.PubKey)
        g.states.values [] hnd
      simp only [List.nil_append] at this
      show List.foldl (fun l state => GoMap.setL (g.GetPubKeyId state.PubKey) state l) []
        g.states.values = _
      rw [this, ← Keyed_entries g hkeyed]
    cases hq : g.states.values.foldl StateUpdaterMgr.AddStateUpdater { states := GoMap.empty }
    rw [hq] at he
    cases g
    simp only at he
    rw [he]
  have hser : g.Serialize c =
      ((c.WriteUint32 g.states.len).1 ++ (StateUpdaterMgr.Serialize.loop c g.states.values).1,
       (StateUpdaterMgr.Serialize.loop c g.states.values).2) := by
    simp only [StateUpdaterMgr.Serialize, hmod, Written.andThen_ok _ _ _ hcw]
  rw [hser]
  refine ⟨hloop.1, ?_⟩
  simp only [StateUpdaterMgr.Deserialize, List.append_assoc, hcr _]
  rw [← hcount, hloop.2, hmap]

end ChainStore

namespace ChainStore

theorem specCollab_RoundTripsRecord (state : StateUpdater)
    (hkey : 0 ≤ state.PubKey.X ∧ state.PubKey.X < 2 ^ 256 ∧
      0 ≤ state.PubKey.Y ∧ state.PubKey.Y < 2 ^ 256)
    (hns : ∀ ns ∈ state.namespaces.keys,
      (∀ ch ∈ ns.toList, ch.toNat < 256) ∧ ns.length < 2 ^ 32) :
    specCollab.RoundTripsRecord state := by
  refine ⟨⟨?_, specCollab_ReadsBackPubKey _ hkey⟩,
    ⟨rfl, specCollab_ReadsBackUint32 _ (Nat.mod_lt _ (by norm_num))⟩,
    fun ns h => ⟨rfl, specCollab_ReadsBackVarString ns (hns ns h).1 (hns ns h).2⟩⟩
  show (crypto.PubKey.Serialize state.PubKey).2 = none
  unfold crypto.PubKey.Serialize
  rw [if_pos hkey]

set_option maxRecDepth 100000 in
/-- Round trip of a registry, at the specification's example built with `AddStateUpdater`:
the decoded registry is the original one, with both identities and their namespaces. -/
theorem Registry_round_trip_witness :
    registryAdded.Keyed ∧
    registryAdded.pairs = [(keyA, ["finance", "hr"]), (keyB, [])] ∧
    priorRegistry.Deserialize specCollab ((registryAdded.Serialize specCollab).1 ++ [7]) =
      (Except.ok [7], registryAdded) :=
  ⟨by decide, by decide,
    (Registry_round_trip specCollab registryAdded priorRegistry [7] (by decide) (by decide)
      rfl (specCollab_ReadsBackUint32 _ (by decide))
      (fun state h => by
        have hv : registryAdded.states.values =
            [NewStateUpdater keyA ["finance", "hr"], NewStateUpdater keyB []] := by decide
        rw [hv] at h
        simp only [List.mem_cons, List.mem_singleton, List.not_mem_nil, or_false] at h
        rcases h with h | h <;> subst h
        · refine ⟨by decide, by decide, specCollab_RoundTripsRecord _ (by decide) ?_⟩
          intro ns hns
          have hk : (NewStateUpdater keyA ["finance", "hr"]).namespaces.keys =
              ["finance", "hr"] := by decide
          rw [hk] at hns
          simp only [List.mem_cons, List.mem_singleton, List.not_mem_nil, or_false] at hns
          rcases hns with hns | hns <;> subst hns <;> exact ⟨by decide, by decide⟩
        · refine ⟨by decide, by decide, specCollab_RoundTripsRecord _ (by decide) ?_⟩
          intro ns hns
          have hk : (NewStateUpdater keyB []).namespaces.keys = [] := by decide
          rw [hk] at hns
          exact absurd hns (List.not_mem_nil ns))).2⟩

end ChainStore

/-! ## Decoding a Record replaces all of it or nothing -/

namespace ChainStore

theorem Deserialize_loop_names (c : Collab) (n : Nat) :
    ∀ (r : Bytes) (acc namespaces : GoMap String String) (rest : Bytes),
      StateUpdater.Deserialize.loop c n r acc = Except.ok (namespaces, rest) →
      ∃ names : List String, decodeNames c n r = Except.ok (names, rest) ∧
        names.length = n ∧ namespaces = names.foldl (fun m k => m.set k k) acc := by
  induction n with
  | zero =>
    intro r acc namespaces rest h
    simp only [StateUpdater.Deserialize.loop, Except.ok.injEq, Prod.mk.injEq] at h
    exact ⟨[], by simp [decodeNames, h.2], rfl, h.1.symm⟩
  | succ n ih =>
    intro r acc namespaces rest h
    simp only [StateUpdater.Deserialize.loop] at h
    cases hr : c.ReadVarString r with
    | error err => rw [hr] at h; simp at h
    | ok v =>
      obtain ⟨ns, r1⟩ := v
      rw [hr] at h
      obtain ⟨names, h1, h2, h3⟩ := ih r1 (acc.set ns ns) namespaces rest h
      exact ⟨ns :: names, by simp [decodeNames, hr, h1], by simp [h2], by simp [h3]⟩

theorem isSome_foldl_set (names : List String) (s : String) :
    ∀ acc : GoMap String String,
      ((names.foldl (fun m k => m.set k k) acc).get? s).isSome = true ↔
        s ∈ names ∨ (acc.get? s).isSome = true := by
  induction names with
  | nil => intro acc; simp
  | cons name rest ih =>
    intro acc
    rw [List.foldl_cons, ih, List.mem_cons]
    by_cases hs : s = name
    · subst hs; simp [GoMap.get?_set_same]
    · rw [GoMap.get?_set_ne _ _ hs]
      constructor
      · rintro (h | h)
        · exact Or.inl (Or.inr h)
        · exact Or.inr h
      · rintro ((h | h) | h)
        · exact absurd h hs
        · exact Or.inl h
        · exact Or.inr h

/-- C11. `StateUpdater.Deserialize` replaces all of the Record or nothing: when it returns
an error, at whatever field, the Record afterwards is the Record before (identity and
namespaces); when it succeeds, the input holds an identity, a count and that many
namespaces, and the Record afterwards has the decoded identity and exactly the namespaces
read, whatever it held before. -/
theorem StateUpdater_Deserialize_atomic (c : Collab) (p : StateUpdater) (r : Bytes) :
    (∀ err : Error, (StateUpdater.Deserialize c p r).1 = Except.error err →
      (StateUpdater.Deserialize c p r).2 = p) ∧
    (∀ rest : Bytes, (StateUpdater.Deserialize c p r).1 = Except.ok rest →
      ∃ (pubkey : crypto.PubKey) (r1 : Bytes) (size : Nat) (r2 : Bytes) (names : List String),
        c.PubKeyDeSerialize r = Except.ok (pubkey, r1) ∧
        c.ReadUint32 r1 = Except.ok (size, r2) ∧
        decodeNames c size r2 = Except.ok (names, rest) ∧
        names.length = size ∧
        (StateUpdater.Deserialize c p r).2.PubKey = pubkey ∧
        ∀ s : String, ((StateUpdater.Deserialize c p r).2.HasNamespace s).1 = true ↔
          s ∈ names) := by
  cases hk : c.PubKeyDeSerialize r with
  | error err =>
    have hd : StateUpdater.Deserialize c p r =
        (Except.error (Error.Errorf "crypto.PubKey DeSerialize error:%s" err), p) := by
      simp only [StateUpdater.Deserialize, hk]
    rw [hd]
    exact ⟨fun _ _ => rfl, fun rest h => by simp at h⟩
  | ok v =>
    obtain ⟨pubkey, r1⟩ := v
    cases hu : c.ReadUint32 r1 with
    | error err =>
      have hd : StateUpdater.Deserialize c p r =
          (Except.error (Error.Errorf "serialization.ReadUint32 namespace size error:%s" err),
            p) := by
        simp only [StateUpdater.Deserialize, hk, hu]
      rw [hd]
      exact ⟨fun _ _ => rfl, fun rest h => by simp at h⟩
    | ok w =>
      obtain ⟨size, r2⟩ := w
      cases hl : StateUpdater.Deserialize.loop c size r2 GoMap.empty with
      | error err =>
        have hd : StateUpdater.Deserialize c p r = (Except.error err, p) := by
          simp only [StateUpdater.Deserialize, hk, hu, hl]
        rw [hd]
        exact ⟨fun _ _ => rfl, fun rest h => by simp at h⟩
      | ok x =>
        obtain ⟨namespaces, r3⟩ := x
        have hd : StateUpdater.Deserialize c p r =
            (Except.ok r3, { PubKey := pubkey, namespaces := namespaces }) := by
          simp only [StateUpdater.Deserialize, hk, hu, hl]
        rw [hd]
        refine ⟨fun err h => by simp at h, fun rest h => ?_⟩
        simp only [Except.ok.injEq] at h
        subst h
        obtain ⟨names, h1, h2, h3⟩ :=
          Deserialize_loop_names c size r2 GoMap.empty namespaces r3 hl
        refine ⟨pubkey, r1, size, r2, names, rfl, hu, h1, h2, rfl, fun s => ?_⟩
        show (namespaces.get? s).isSome = true ↔ s ∈ names
        rw [h3, isSome_foldl_set]
        simp [GoMap.get?, GoMap.empty, GoMap.getL]

end ChainStore

/-! ## Inputs cut short -/

theorem Truncated.length_lt {b w : Bytes} (h : Truncated b w) : b.length < w.length := by
  obtain ⟨t, ht, hw⟩ := h
  rw [hw, List.length_append]
  have : 0 < t.length := List.length_pos.mpr ht
  omega

theorem Truncated.not_nil {b : Bytes} (h : Truncated b []) : False := by
  have := h.length_lt
  simp at this

theorem Truncated.split {b x y : Bytes} (h : Truncated b (x ++ y)) :
    Truncated b x ∨ ∃ b2 : Bytes, b = x ++ b2 ∧ Truncated b2 y := by
  obtain ⟨t, ht, hw⟩ := h
  rcases List.append_eq_append_iff.mp hw with ⟨a, ha, hy⟩ | ⟨a, ha, hy⟩
  · exact Or.inr ⟨a, ha, t, ht, hy⟩
  · by_cases hnil : a = []
    · subst hnil
      refine Or.inr ⟨[], ?_, t, ht, ?_⟩
      · simpa using ha.symm
      · simpa using hy.symm
    · exact Or.inl ⟨a, hnil, ha⟩

theorem Truncated.append_left (x : Bytes) {b y : Bytes} (h : Truncated b y) :
    Truncated (x ++ b) (x ++ y) := by
  obtain ⟨t, ht, hw⟩ := h
  exact ⟨t, ht, by rw [hw, List.append_assoc]⟩

theorem Truncated.of_append_right (b : Bytes) {t : Bytes} (h : t ≠ []) :
    Truncated b (b ++ t) :=
  ⟨t, h, rfl⟩

namespace serialization

theorem takeN_short (n : Nat) : ∀ b : Bytes, b.length < n → takeN n b = none := by
  induction n with
  | zero => intro b h; simp at h
  | succ n ih =>
    intro b h
    cases b with
    | nil => rfl
    | cons x t =>
      simp only [List.length_cons, Nat.add_lt_add_iff_right] at h
      simp [takeN, ih t h]

theorem ReadUint32_cut (n : Nat) (b : Bytes) (h : Truncated b (WriteUint32 n).1) :
    ReadUint32 b = Except.error Error.EOF := by
  have hl := h.length_lt
  simp only [WriteUint32, length_leBytes] at hl
  simp only [ReadUint32, takeN_short 4 b hl]

theorem ReadVarBytes_cut (x : Bytes) (hx : x.length < 2 ^ 32) (b : Bytes)
    (h : Truncated b (WriteVarBytes x).1) : ReadVarBytes b = Except.error Error.EOF := by
  have hm : x.length % 2 ^ 32 = x.length := Nat.mod_eq_of_lt hx
  simp only [WriteVarBytes, hm] at h
  rcases h.split with h1 | ⟨b2, hb, h2⟩
  · have hl := h1.length_lt
    rw [length_leBytes] at hl
    simp only [ReadVarBytes, ReadUint32, takeN_short 4 b hl]
  · have h3 : ReadUint32 (leBytes 4 x.length ++ b2) = Except.ok (x.length, b2) :=
      ReadUint32_WriteUint32 x.length hx b2
    simp only [ReadVarBytes, hb, h3, takeN_short x.length b2 h2.length_lt]

theorem ReadVarString_cut (s : String) (hs : s.length < 2 ^ 32) (b : Bytes)
    (h : Truncated b (WriteVarString s).1) : ReadVarString b = Except.error Error.EOF := by
  have hl : (stringBytes s).length < 2 ^ 32 := by simpa [stringBytes] using hs
  simp only [ReadVarString, ReadVarBytes_cut (stringBytes s) hl b h]

end serialization

namespace crypto

theorem DeSerialize_cut (k : PubKey) (b : Bytes) (h : Truncated b (PubKey.Serialize k).1) :
    PubKey.DeSerialize b = Except.error Error.EOF := by
  unfold PubKey.Serialize at h
  split at h
  · rcases h.split with h1 | ⟨b2, hb, h2⟩
    · have hl := h1.length_lt
      rw [serialization.length_leBytes] at hl
      simp only [PubKey.DeSerialize, serialization.takeN_short 32 b hl]
    · have hl := h2.length_lt
      rw [serialization.length_leBytes] at hl
      simp only [PubKey.DeSerialize, hb, serialization.takeN_leBytes,
        serialization.takeN_short 32 b2 hl]
  · exact absurd h (fun h2 => h2.not_nil)

end crypto

theorem specCollab_RejectsCutUint32 (n : Nat) : specCollab.RejectsCutUint32 n :=
  fun b h => ⟨Error.EOF, serialization.ReadUint32_cut n b h⟩

theorem specCollab_RejectsCutVarBytes (x : Bytes) (hx : x.length < 2 ^ 32) :
    specCollab.RejectsCutVarBytes x :=
  fun b h => ⟨Error.EOF, serialization.ReadVarBytes_cut x hx b h⟩

theorem specCollab_RejectsCutVarString (s : String) (hs : s.length < 2 ^ 32) :
    specCollab.RejectsCutVarString s :=
  fun b h => ⟨Error.EOF, serialization.ReadVarString_cut s hs b h⟩

theorem specCollab_RejectsCutPubKey (k : crypto.PubKey) : specCollab.RejectsCutPubKey k :=
  fun b h => ⟨Error.EOF, crypto.DeSerialize_cut k b h⟩

/-! ## Action payload: inputs cut short -/

namespace payload

theorem Deserialize_cut_in_Namespace (c : Collab) (self : StateUpdater) (b : Bytes)
    (version : Byte) (cause : Error) (h : c.ReadVarBytes b = Except.error cause) :
    (StateUpdater.Deserialize c self b version).1 =
      Except.error (Error.DetailErr cause "[StateUpdater], Namespace Deserialize failed.") := by
  simp only [StateUpdater.Deserialize, h, NewDetailErr]

theorem Deserialize_cut_in_PubKey (c : Collab) (self : StateUpdater) (b : Bytes)
    (version : Byte) (ns r1 : Bytes) (cause : Error)
    (h1 : c.ReadVarBytes b = Except.ok (ns, r1))
    (h2 : c.PubKeyDeSerialize r1 = Except.error cause) :
    (StateUpdater.Deserialize c self b version).1 =
      Except.error (Error.DetailErr cause "[StateUpdater], PubKey Deserialize failed.") := by
  simp only [StateUpdater.Deserialize, h1, h2, NewDetailErr]

theorem Deserialize_cut_at_Action (c : Collab) (self : StateUpdater) (b : Bytes)
    (version : Byte) (ns r1 : Bytes) (pubkey : crypto.PubKey)
    (h1 : c.ReadVarBytes b = Except.ok (ns, r1))
    (h2 : c.PubKeyDeSerialize r1 = Except.ok (pubkey, [])) :
    (StateUpdater.Deserialize c self b version).1 =
      Except.error (Error.DetailErr Error.EOF "[StateUpdater], Action Deserialize failed.") := by
  simp only [StateUpdater.Deserialize, h1, h2, Read1, NewDetailErr]

theorem Deserialize_cut_in_Cert (c : Collab) (self : StateUpdater) (b : Bytes)
    (version : Byte) (ns r1 r3 : Bytes) (pubkey : crypto.PubKey) (action : Byte) (cause : Error)
    (h1 : c.ReadVarBytes b = Except.ok (ns, r1))
    (h2 : c.PubKeyDeSerialize r1 = Except.ok (pubkey, action :: r3))
    (h3 : c.ReadVarBytes r3 = Except.error cause) :
    (StateUpdater.Deserialize c self b version).1 =
      Except.error (Error.DetailErr cause "[StateUpdater], Cert Deserialize failed.") := by
  simp only [StateUpdater.Deserialize, h1, h2, Read1, h3, NewDetailErr]

/-- C12. For every payload `p` whose Namespace and identity the codecs read back, and on
whose Namespace, identity and Cert encodings, cut short, they fail: `Deserialize` at version
0 of the bytes `Serialize` wrote at version 0, cut short anywhere, returns an error (the
function is total: it returns on every input).  The error names the field the cut falls in:
Namespace when the cut is inside (or at the start of) the Namespace encoding, PubKey when it
is inside (or at the start of) the identity encoding, Action when the input ends right
before the action byte, Cert when it is inside (or at the start of) the Cert encoding. -/
theorem Deserialize_cut_short (c : Collab) (p self : StateUpdater) (b : Bytes)
    (hns : c.ReadsBackVarBytes p.Namespace) (hpk : c.ReadsBackPubKey p.PubKey)
    (hnsCut : c.RejectsCutVarBytes p.Namespace) (hpkCut : c.RejectsCutPubKey p.PubKey)
    (hcertCut : c.RejectsCutVarBytes p.Cert)
    (hb : Truncated b (p.Serialize c bufferWrite StateUpdaterPayloadVersion).1) :
    (∃ err : Error,
      (StateUpdater.Deserialize c self b StateUpdaterPayloadVersion).1 = Except.error err) ∧
    (Truncated b (c.WriteVarBytes p.Namespace).1 →
      ∃ cause : Error, (StateUpdater.Deserialize c self b StateUpdaterPayloadVersion).1 =
        Except.error (Error.DetailErr cause "[StateUpdater], Namespace Deserialize failed.")) ∧
    (∀ b2 : Bytes, b = (c.WriteVarBytes p.Namespace).1 ++ b2 →
      Truncated b2 (c.PubKeySerialize p.PubKey).1 →
      ∃ cause : Error, (StateUpdater.Deserialize c self b StateUpdaterPayloadVersion).1 =
        Except.error (Error.DetailErr cause "[StateUpdater], PubKey Deserialize failed.")) ∧
    (b = (c.WriteVarBytes p.Namespace).1 ++ (c.PubKeySerialize p.PubKey).1 →
      (StateUpdater.Deserialize c self b StateUpdaterPayloadVersion).1 =
        Except.error
          (Error.DetailErr Error.EOF "[StateUpdater], Action Deserialize failed.")) ∧
    (∀ b2 : Bytes,
      b = (c.WriteVarBytes p.Namespace).1 ++ ((c.PubKeySerialize p.PubKey).1 ++
        (p.Action :: b2)) →
      Truncated b2 (c.WriteVarBytes p.Cert).1 →
      ∃ cause : Error, (StateUpdater.Deserialize c self b StateUpdaterPayloadVersion).1 =
        Except.error (Error.DetailErr cause "[StateUpdater], Cert Deserialize failed.")) := by
  have inNs : Truncated b (c.WriteVarBytes p.Namespace).1 →
      ∃ cause : Error, (StateUpdater.Deserialize c self b StateUpdaterPayloadVersion).1 =
        Except.error (Error.DetailErr cause "[StateUpdater], Namespace Deserialize failed.") := by
    intro h
    obtain ⟨cause, hc⟩ := hnsCut b h
    exact ⟨cause, Deserialize_cut_in_Namespace c self b _ cause hc⟩
  have inPk : ∀ b2 : Bytes, b = (c.WriteVarBytes p.Namespace).1 ++ b2 →
      Truncated b2 (c.PubKeySerialize p.PubKey).1 →
      ∃ cause : Error, (StateUpdater.Deserialize c self b StateUpdaterPayloadVersion).1 =
        Except.error (Error.DetailErr cause "[StateUpdater], PubKey Deserialize failed.") := by
    intro b2 hb2 h
    obtain ⟨cause, hc⟩ := hpkCut b2 h
    exact ⟨cause, Deserialize_cut_in_PubKey c self b _ p.Namespace b2 cause
      (by rw [hb2]; exact hns b2) hc⟩
  have atAct : b = (c.WriteVarBytes p.Namespace).1 ++ (c.PubKeySerialize p.PubKey).1 →
      (StateUpdater.Deserialize c self b StateUpdaterPayloadVersion).1 =
        Except.error
          (Error.DetailErr Error.EOF "[StateUpdater], Action Deserialize failed.") := by
    intro hb2
    exact Deserialize_cut_at_Action c self b _ p.Namespace (c.PubKeySerialize p.PubKey).1
      p.PubKey (by rw [hb2]; exact hns _)
      (by simpa using hpk [])
  have inCert : ∀ b2 : Bytes,
      b = (c.WriteVarBytes p.Namespace).1 ++ ((c.PubKeySerialize p.PubKey).1 ++
        (p.Action :: b2)) →
      Truncated b2 (c.WriteVarBytes p.Cert).1 →
      ∃ cause : Error, (StateUpdater.Deserialize c self b StateUpdaterPayloadVersion).1 =
        Except.error (Error.DetailErr cause "[StateUpdater], Cert Deserialize failed.") := by
    intro b2 hb2 h
    obtain ⟨cause, hc⟩ := hcertCut b2 h
    exact ⟨cause, Deserialize_cut_in_Cert c self b _ p.Namespace
      ((c.PubKeySerialize p.PubKey).1 ++ (p.Action :: b2)) b2 p.PubKey p.Action cause
      (by rw [hb2]; exact hns _) (hpk _) hc⟩
  refine ⟨?_, inNs, inPk, atAct, inCert⟩
  have hd : (p.Serialize c bufferWrite StateUpdaterPayloadVersion).1 =
      (c.WriteVarBytes p.Namespace).1 ++ ((c.PubKeySerialize p.PubKey).1 ++
        ([p.Action] ++ (c.WriteVarBytes p.Cert).1)) := by
    simp [StateUpdater.Serialize, bufferWrite, StateUpdater.Data]
  rw [hd] at hb
  rcases hb.split with h1 | ⟨b2, hb2, h2⟩
  · obtain ⟨cause, hc⟩ := inNs h1
    exact ⟨_, hc⟩
  · rcases h2.split with h3 | ⟨b3, hb3, h4⟩
    · obtain ⟨cause, hc⟩ := inPk b2 hb2 h3
      exact ⟨_, hc⟩
    · rcases h4.split with h5 | ⟨b4, hb4, h6⟩
      · have hnil : b3 = [] := by
          obtain ⟨t, hne, ht⟩ := h5
          cases b3 with
          | nil => rfl
          | cons x xs =>
            have := congrArg List.length ht
            simp at this
            exact absurd this.2 hne
        subst hnil
        exact ⟨_, atAct (by rw [hb2, hb3, List.append_nil])⟩
      · obtain ⟨cause, hc⟩ := inCert b4 (by rw [hb2, hb3, hb4]; rfl) h6
        exact ⟨_, hc⟩

set_option maxRecDepth 100000 in
/-- C12, at the specification's example cut right before the action byte: the collaborators
of the specification satisfy the hypotheses, and `Deserialize` returns the error that names
Action. -/
theorem Deserialize_cut_short_witness :
    Truncated financeAddCut
      (financeAdd.Serialize specCollab bufferWrite StateUpdaterPayloadVersion).1 ∧
    (∃ err : Error,
      (StateUpdater.Deserialize specCollab stale financeAddCut
        StateUpdaterPayloadVersion).1 = Except.error err) ∧
    (StateUpdater.Deserialize specCollab stale financeAddCut StateUpdaterPayloadVersion).1 =
      Except.error (Error.DetailErr Error.EOF "[StateUpdater], Action Deserialize failed.") :=
  have hb : Truncated financeAddCut
      (financeAdd.Serialize specCollab bufferWrite StateUpdaterPayloadVersion).1 :=
    ⟨[0, 0, 0, 0, 0], by decide, by decide⟩
  have h := Deserialize_cut_short specCollab financeAdd stale financeAddCut
    (specCollab_ReadsBackVarBytes _ (by simp [financeAdd, serialization.stringBytes]))
    (specCollab_ReadsBackPubKey _ (by norm_num [financeAdd]))
    (specCollab_RejectsCutVarBytes _ (by simp [financeAdd, serialization.stringBytes]))
    (specCollab_RejectsCutPubKey _)
    (specCollab_RejectsCutVarBytes _ (by simp [financeAdd]))
    hb
  ⟨hb, h.1, h.2.2.2.1 (by decide)⟩

end payload

/-! ## Registry: inputs cut short -/

namespace ChainStore

theorem StateUpdater_Serialize_ok (c : Collab) (state : StateUpdater)
    (hpw : (c.PubKeySerialize state.PubKey).2 = none)
    (huw : (c.WriteUint32 (state.namespaces.len % 2 ^ 32)).2 = none) :
    state.Serialize c =
      ((c.PubKeySerialize state.PubKey).1 ++
        ((c.WriteUint32 (state.namespaces.len % 2 ^ 32)).1 ++
          (StateUpdater.Serialize.loop c state.namespaces.keys).1),
       (StateUpdater.Serialize.loop c state.namespaces.keys).2) := by
  simp only [StateUpdater.Serialize, Written.andThen_ok _ _ _ hpw,
    Written.andThen_ok _ _ _ huw]

theorem Record_reads_back (c : Collab) (state self : StateUpdater) (tail : Bytes)
    (hlen : state.namespaces.len < 2 ^ 32) (hc : c.RoundTripsRecord state) :
    (state.Serialize c).2 = none ∧
    (StateUpdater.Deserialize c self ((state.Serialize c).1 ++ tail)).1 = Except.ok tail := by
  obtain ⟨⟨hpw, hpr⟩, ⟨huw, hur⟩, hns⟩ := hc
  have hloop := Record_loops_round_trip c state.namespaces.keys GoMap.empty tail hns
  have hcount : state.namespaces.keys.length = state.namespaces.len := by
    simp [GoMap.keys, GoMap.len]
  rw [StateUpdater_Serialize_ok c state hpw huw]
  refine ⟨hloop.1, ?_⟩
  have hmod : state.namespaces.len % 2 ^ 32 = state.namespaces.len := Nat.mod_eq_of_lt hlen
  have hur2 := hur ((StateUpdater.Serialize.loop c state.namespaces.keys).1 ++ tail)
  rw [hmod] at hur2
  simp only [StateUpdater.Deserialize, List.append_assoc, hpr _, hmod, hur2]
  rw [← hcount, hloop.2]

theorem Record_loop_cut (c : Collab) (keys : List String) :
    ∀ (acc : GoMap String String) (b : Bytes),
      (∀ ns ∈ keys, ((c.WriteVarString ns).2 = none ∧ c.ReadsBackVarString ns) ∧
        c.RejectsCutVarString ns) →
      Truncated b (StateUpdater.Serialize.loop c keys).1 →
      ∃ err : Error, StateUpdater.Deserialize.loop c keys.length b acc = Except.error err := by
  induction keys with
  | nil =>
    intro acc b _ hb
    exact absurd hb (fun h => h.not_nil)
  | cons k t ih =>
    intro acc b h hb
    obtain ⟨⟨hw, hr⟩, hcut⟩ := h k (List.mem_cons_self k t)
    simp only [StateUpdater.Serialize.loop, Written.andThen_ok _ _ _ hw] at hb
    rcases hb.split with h1 | ⟨b2, hb2, h2⟩
    · obtain ⟨err, he⟩ := hcut b h1
      exact ⟨_, by simp only [List.length_cons, StateUpdater.Deserialize.loop, he]; rfl⟩
    · obtain ⟨err, he⟩ := ih (acc.set k k) b2
        (fun ns hns => h ns (List.mem_cons_of_mem k hns)) h2
      subst hb2
      exact ⟨err, by simp only [List.length_cons, StateUpdater.Deserialize.loop, hr b2, he]⟩

theorem Record_cut (c : Collab) (state self : StateUpdater) (b : Bytes)
    (hlen : state.namespaces.len < 2 ^ 32) (hc : c.RoundTripsRecord state)
    (hcut : c.RejectsCutRecord state) (hb : Truncated b (state.Serialize c).1) :
    ∃ err : Error, (StateUpdater.Deserialize c self b).1 = Except.error err := by
  obtain ⟨⟨hpw, hpr⟩, ⟨huw, hur⟩, hns⟩ := hc
  obtain ⟨hkc, huc, hnc⟩ := hcut
  have hmod : state.namespaces.len % 2 ^ 32 = state.namespaces.len := Nat.mod_eq_of_lt hlen
  have hcount : state.namespaces.keys.length = state.namespaces.len := by
    simp [GoMap.keys, GoMap.len]
  rw [StateUpdater_Serialize_ok c state hpw huw] at hb
  rw [hmod] at hb huc hur
  rcases hb.split with h1 | ⟨b2, hb2, h2⟩
  · obtain ⟨err, he⟩ := hkc b h1
    exact ⟨_, by simp only [StateUpdater.Deserialize, he]; rfl⟩
  · subst hb2
    rcases h2.split with h3 | ⟨b3, hb3, h4⟩
    · obtain ⟨err, he⟩ := huc b2 h3
      exact ⟨_, by simp only [StateUpdater.Deserialize, hpr b2, he]; rfl⟩
    · subst hb3
      obtain ⟨err, he⟩ := Record_loop_cut c state.namespaces.keys GoMap.empty b3
        (fun ns h => ⟨hns ns h, hnc ns h⟩) h4
      rw [hcount] at he
      exact ⟨err, by simp only [StateUpdater.Deserialize, hpr _, hur b3, he]⟩

theorem Registry_loop_cut (c : Collab) (states : List StateUpdater) :
    ∀ (p : StateUpdaterMgr) (b : Bytes),
      (∀ state ∈ states, state.namespaces.len < 2 ^ 32 ∧ c.RoundTripsRecord state ∧
        c.RejectsCutRecord state) →
      Truncated b (StateUpdaterMgr.Serialize.loop c states).1 →
      ∃ err : Error,
        (StateUpdaterMgr.Deserialize.loop c states.length b p).1 = Except.error err := by
  induction states with
  | nil =>
    intro p b _ hb
    exact absurd hb (fun h => h.not_nil)
  | cons state rest ih =>
    intro p b h hb
    obtain ⟨hlen, hc, hcut⟩ := h state (List.mem_cons_self state rest)
    have hw := (Record_reads_back c state StateUpdater.new [] hlen hc).1
    simp only [StateUpdaterMgr.Serialize.loop, Written.andThen_ok _ _ _ hw] at hb
    rcases hb.split with h1 | ⟨b2, hb2, h2⟩
    · obtain ⟨err, he⟩ := Record_cut c state StateUpdater.new b hlen hc hcut h1
      rcases hd : StateUpdater.Deserialize c StateUpdater.new b with ⟨res, st⟩
      rw [hd] at he
      simp only at he
      subst he
      exact ⟨_, by simp only [List.length_cons, StateUpdaterMgr.Deserialize.loop, hd]; rfl⟩
    · have hok := (Record_reads_back c state StateUpdater.new b2 hlen hc).2
      rcases hd : StateUpdater.Deserialize c StateUpdater.new ((state.Serialize c).1 ++ b2)
        with ⟨res, st⟩
      rw [hd] at hok
      simp only at hok
      subst hok
      obtain ⟨err, he⟩ := ih (p.AddStateUpdater st) b2
        (fun s hs => h s (List.mem_cons_of_mem state hs)) h2
      subst hb2
      exact ⟨err, by simp only [List.length_cons, StateUpdaterMgr.Deserialize.loop, hd, he]⟩

/-- C13. For every registry `g` with fewer than 2^32 Records, each with fewer than 2^32
namespaces, on which the codecs round-trip and fail on cut-short encodings, and for every
receiver: `StateUpdaterMgr.Deserialize` of the bytes `Serialize` wrote for `g`, cut short
anywhere (before the registry count, in or before an identity, a namespace count or a
namespace), returns an error; it accepts no cut-short input as a smaller registry.  The
function is total: it returns on every input. -/
theorem Registry_cut_short (c : Collab) (g p : StateUpdaterMgr) (b : Bytes)
    (hlen : g.states.len < 2 ^ 32)
    (hcw : (c.WriteUint32 (g.states.len % 2 ^ 32)).2 = none)
    (hcr : c.ReadsBackUint32 (g.states.len % 2 ^ 32))
    (hcc : c.RejectsCutUint32 (g.states.len % 2 ^ 32))
    (hrec : ∀ state ∈ g.states.values, state.namespaces.len < 2 ^ 32 ∧
      c.RoundTripsRecord state ∧ c.RejectsCutRecord state)
    (hb : Truncated b (g.Serialize c).1) :
    ∃ err : Error, (p.Deserialize c b).1 = Except.error err := by
  have hmod : g.states.len % 2 ^ 32 = g.states.len := Nat.mod_eq_of_lt hlen
  have hcount : g.states.values.length = g.states.len := by
    simp [GoMap.values, GoMap.len]
  simp only [StateUpdaterMgr.Serialize, Written.andThen_ok _ _ _ hcw] at hb
  rw [hmod] at hb hcc hcr
  rcases hb.split with h1 | ⟨b2, hb2, h2⟩
  · obtain ⟨err, he⟩ := hcc b h1
    exact ⟨_, by simp only [StateUpdaterMgr.Deserialize, he]; rfl⟩
  · subst hb2
    obtain ⟨err, he⟩ := Registry_loop_cut c g.states.values { states := GoMap.empty } b2 hrec h2
    rw [hcount] at he
    exact ⟨err, by simp only [StateUpdaterMgr.Deserialize, hcr b2, he]⟩

theorem specCollab_RejectsCutRecord (state : StateUpdater)
    (hns : ∀ ns ∈ state.namespaces.keys, ns.length < 2 ^ 32) :
    specCollab.RejectsCutRecord state :=
  ⟨specCollab_RejectsCutPubKey _, specCollab_RejectsCutUint32 _,
    fun ns h => specCollab_RejectsCutVarString ns (hns ns h)⟩

end ChainStore

namespace ChainStore

set_option maxRecDepth 100000 in
theorem registryAdded_records :
    ∀ state ∈ registryAdded.states.values, state.namespaces.len < 2 ^ 32 ∧
      specCollab.RoundTripsRecord state ∧ specCollab.RejectsCutRecord state := by
  intro state h
  have hv : registryAdded.states.values =
      [NewStateUpdater keyA ["finance", "hr"], NewStateUpdater keyB []] := by decide
  rw [hv] at h
  simp only [List.mem_cons, List.mem_singleton, List.not_mem_nil, or_false] at h
  rcases h with h | h <;> subst h
  · have hk : (NewStateUpdater keyA ["finance", "hr"]).namespaces.keys =
        ["finance", "hr"] := by decide
    have hns : ∀ ns ∈ (NewStateUpdater keyA ["finance", "hr"]).namespaces.keys,
        (∀ ch ∈ ns.toList, ch.toNat < 256) ∧ ns.length < 2 ^ 32 := by
      intro ns hns
      rw [hk] at hns
      simp only [List.mem_cons, List.mem_singleton, List.not_mem_nil, or_false] at hns
      rcases hns with hns | hns <;> subst hns <;> exact ⟨by decide, by decide⟩
    exact ⟨by decide, specCollab_RoundTripsRecord _ (by decide) hns,
      specCollab_RejectsCutRecord _ (fun ns h => (hns ns h).2)⟩
  · have hk : (NewStateUpdater keyB []).namespaces.keys = [] := by decide
    have hns : ∀ ns ∈ (NewStateUpdater keyB []).namespaces.keys,
        (∀ ch ∈ ns.toList, ch.toNat < 256) ∧ ns.length < 2 ^ 32 := by
      intro ns hns
      rw [hk] at hns
      exact absurd hns (List.not_mem_nil ns)
    exact ⟨by decide, specCollab_RoundTripsRecord _ (by decide) hns,
      specCollab_RejectsCutRecord _ (fun ns h => (hns ns h).2)⟩

set_option maxRecDepth 100000 in
/-- C13, at the specification's example built with `AddStateUpdater`, cut after 100 of its
157 bytes: `Deserialize` returns an error, the one of the identity of the second Record. -/
theorem Registry_cut_short_witness :
    Truncated registryAddedCut (registryAdded.Serialize specCollab).1 ∧
    (∃ err : Error,
      (priorRegistry.Deserialize specCollab registryAddedCut).1 = Except.error err) ∧
    (priorRegistry.Deserialize specCollab registryAddedCut).1 =
      Except.error (Error.Errorf "StateUpdater Deserialize error:%s"
        (Error.Errorf "crypto.PubKey DeSerialize error:%s" Error.EOF)) :=
  have hb : Truncated registryAddedCut (registryAdded.Serialize specCollab).1 :=
    ⟨(registryAdded.Serialize specCollab).1.drop 100, by decide, by decide⟩
  ⟨hb,
    Registry_cut_short specCollab registryAdded priorRegistry registryAddedCut (by decide) rfl
      (specCollab_ReadsBackUint32 _ (by decide)) (specCollab_RejectsCutUint32 _)
      registryAdded_records hb,
    by decide⟩

end ChainStore

/-! ## Action payload: field by field -/

namespace payload

/-- C14. Payload `Deserialize`, field by field, for every input, receiver and version.  A
failure reading Namespace, the identity or Cert returns the decode error that names the
field and wraps the cause.  When Namespace and the identity decode: if the input ends before
the action byte, the read returns zero bytes and the error names Action; if the next byte is
0, the read counts as done, Action is Add and decoding goes on with Cert, whose success ends
the call with the four decoded fields. -/
theorem Deserialize_field_by_field (c : Collab) (self : StateUpdater) (r : Bytes)
    (version : Byte) :
    (∀ cause : Error, c.ReadVarBytes r = Except.error cause →
      (StateUpdater.Deserialize c self r version).1 =
        Except.error (Error.DetailErr cause "[StateUpdater], Namespace Deserialize failed.")) ∧
    (∀ (ns r1 : Bytes), c.ReadVarBytes r = Except.ok (ns, r1) →
      (∀ cause : Error, c.PubKeyDeSerialize r1 = Except.error cause →
        (StateUpdater.Deserialize c self r version).1 =
          Except.error (Error.DetailErr cause "[StateUpdater], PubKey Deserialize failed.")) ∧
      (∀ (pubkey : crypto.PubKey) (r2 : Bytes),
        c.PubKeyDeSerialize r1 = Except.ok (pubkey, r2) →
        (r2 = [] →
          (Read1 r2).1 = 0 ∧
          (StateUpdater.Deserialize c self r version).1 =
            Except.error
              (Error.DetailErr Error.EOF "[StateUpdater], Action Deserialize failed.")) ∧
        (∀ (action : Byte) (r3 : Bytes), r2 = action :: r3 →
          (Read1 r2).1 = 1 ∧
          (∀ cause : Error, c.ReadVarBytes r3 = Except.error cause →
            (StateUpdater.Deserialize c self r version).1 =
              Except.error (Error.DetailErr cause "[StateUpdater], Cert Deserialize failed.") ∧
            (StateUpdater.Deserialize c self r version).2.Action = action) ∧
          (∀ (cert r4 : Bytes), c.ReadVarBytes r3 = Except.ok (cert, r4) →
            StateUpdater.Deserialize c self r version =
              (Except.ok r4,
                { Namespace := ns, PubKey := pubkey, Action := action, Cert := cert }))) ∧
        (∀ r3 : Bytes, r2 = 0 :: r3 → ∀ (cert r4 : Bytes),
          c.ReadVarBytes r3 = Except.ok (cert, r4) →
          (StateUpdater.Deserialize c self r version).2.Action = StateUpdaterAction_ADD))) := by
  refine ⟨fun cause h => Deserialize_cut_in_Namespace c self r version cause h,
    fun ns r1 h1 => ⟨fun cause h2 => Deserialize_cut_in_PubKey c self r version ns r1 cause h1 h2,
      fun pubkey r2 h2 => ⟨?_, ?_, ?_⟩⟩⟩
  · intro hnil
    subst hnil
    exact ⟨rfl, Deserialize_cut_at_Action c self r version ns r1 pubkey h1 h2⟩
  · intro action r3 hr
    subst hr
    refine ⟨rfl, fun cause h3 => ⟨?_, ?_⟩, fun cert r4 h3 => ?_⟩
    · exact Deserialize_cut_in_Cert c self r version ns r1 r3 pubkey action cause h1 h2 h3
    · simp only [StateUpdater.Deserialize, h1, h2, Read1, h3]
    · simp only [StateUpdater.Deserialize, h1, h2, Read1, h3]
  · intro r3 hr cert r4 h3
    subst hr
    simp only [StateUpdater.Deserialize, h1, h2, Read1, h3]
    rfl

set_option maxRecDepth 100000 in
/-- C14, at concrete inputs with the collaborators of the specification: the encoding of the
example payload cut before its action byte gives the Action error, and the whole encoding,
whose action byte is 0, decodes to the payload with Action Add. -/
theorem Deserialize_field_by_field_witness :
    (StateUpdater.Deserialize specCollab stale financeAddCut StateUpdaterPayloadVersion).1 =
      Except.error (Error.DetailErr Error.EOF "[StateUpdater], Action Deserialize failed.") ∧
    StateUpdater.Deserialize specCollab stale
        (financeAdd.Serialize specCollab bufferWrite StateUpdaterPayloadVersion).1
        StateUpdaterPayloadVersion =
      (Except.ok [], financeAdd) ∧
    financeAdd.Action = StateUpdaterAction_ADD :=
  have h := Deserialize_field_by_field specCollab stale financeAddCut StateUpdaterPayloadVersion
  ⟨((h.2 financeAdd.Namespace ((specCollab.PubKeySerialize financeAdd.PubKey).1)
      (by decide)).2 financeAdd.PubKey [] (by decide)).1 rfl |>.2,
    by decide, rfl⟩

/-- C15. For every payload and version, `Data` is the length-prefixed Namespace, then the
identity encoding, then the one action byte, then the length-prefixed Cert, in this order
and nothing else; the action byte is 0 for Add and 1 for Sub and sits right after the
identity encoding; `Serialize` hands exactly these bytes to the writer in one write, and a
writer that accepts them has received exactly them. -/
theorem Data_layout (c : Collab) (p : StateUpdater) (version : Byte) (w : Bytes → Written) :
    p.Data c version =
      (c.WriteVarBytes p.Namespace).1 ++ (c.PubKeySerialize p.PubKey).1 ++ [p.Action] ++
        (c.WriteVarBytes p.Cert).1 ∧
    (p.Data c version).length =
      (c.WriteVarBytes p.Namespace).1.length + (c.PubKeySerialize p.PubKey).1.length + 1 +
        (c.WriteVarBytes p.Cert).1.length ∧
    (p.Data c version)[(c.WriteVarBytes p.Namespace).1.length +
      (c.PubKeySerialize p.PubKey).1.length]? = some p.Action ∧
    (StateUpdaterAction_ADD : Byte) = 0 ∧ (StateUpdaterAction_SUB : Byte) = 1 ∧
    p.Serialize c w version = w (p.Data c version) ∧
    p.Serialize c bufferWrite version = (p.Data c version, none) := by
  refine ⟨rfl, ?_, ?_, rfl, rfl, rfl, rfl⟩
  · simp only [StateUpdater.Data, List.length_append, List.length_singleton]
  · simp only [StateUpdater.Data, List.append_assoc, List.singleton_append]
    rw [← List.append_assoc, List.getElem?_append_right (by simp)]
    simp

/-- C18. The version byte changes nothing: for every payload and every two versions, `Data`
and `Serialize` give the same bytes, and for every input and receiver `Deserialize` gives
the same outcome (same error or same rest of the input, same fields); each agrees with
version 0. -/
theorem version_is_ignored (c : Collab) (p self : StateUpdater) (b : Bytes)
    (w : Bytes → Written) (v1 v2 : Byte) :
    p.Data c v1 = p.Data c v2 ∧
    p.Serialize c w v1 = p.Serialize c w v2 ∧
    StateUpdater.Deserialize c self b v1 = StateUpdater.Deserialize c self b v2 ∧
    p.Data c v1 = p.Data c StateUpdaterPayloadVersion ∧
    StateUpdater.Deserialize c self b v1 =
      StateUpdater.Deserialize c self b StateUpdaterPayloadVersion :=
  ⟨rfl, rfl, rfl, rfl, rfl⟩

end payload

/-! ## Action payload: encoder errors and the action byte -/

namespace payload

/-- Whatever the three encoders return, `Serialize` into a writer that accepts every write
returns no error and writes all that the encoders wrote. -/
theorem Serialize_never_fails (c : Collab) (p : StateUpdater) (version : Byte) :
    p.Serialize c bufferWrite version =
      ((c.WriteVarBytes p.Namespace).1 ++ (c.PubKeySerialize p.PubKey).1 ++ [p.Action] ++
        (c.WriteVarBytes p.Cert).1, none) :=
  rfl

set_option maxRecDepth 100000 in
/-- C17 fails on a payload whose identity the identity codec refuses: the codec returns an
error for the key (-1, 2) and writes nothing for it; `Serialize` returns no error, and the
writer receives 16 bytes, the Namespace, the action byte and the Cert without an identity
between them. -/
theorem Serialize_drops_encoder_error :
    (specCollab.PubKeySerialize refusedKey.PubKey).2 =
      some (Error.Message "invalid public key") ∧
    (refusedKey.Serialize specCollab bufferWrite StateUpdaterPayloadVersion).2 = none ∧
    (refusedKey.Serialize specCollab bufferWrite StateUpdaterPayloadVersion).1 =
      (specCollab.WriteVarBytes refusedKey.Namespace).1 ++ [refusedKey.Action] ++
        (specCollab.WriteVarBytes refusedKey.Cert).1 ∧
    (refusedKey.Serialize specCollab bufferWrite StateUpdaterPayloadVersion).1.length = 16 := by
  decide

theorem Deserialize_ok_fields (c : Collab) (self q : StateUpdater) (r rest : Bytes)
    (version : Byte) (h : StateUpdater.Deserialize c self r version = (Except.ok rest, q)) :
    ∃ (ns r1 : Bytes) (pubkey : crypto.PubKey) (action : Byte) (r3 cert : Bytes),
      c.ReadVarBytes r = Except.ok (ns, r1) ∧
      c.PubKeyDeSerialize r1 = Except.ok (pubkey, action :: r3) ∧
      c.ReadVarBytes r3 = Except.ok (cert, rest) ∧
      q = { Namespace := ns, PubKey := pubkey, Action := action, Cert := cert } := by
  cases h1 : c.ReadVarBytes r with
  | error err => simp [StateUpdater.Deserialize, h1] at h
  | ok v1 =>
    obtain ⟨ns, r1⟩ := v1
    cases h2 : c.PubKeyDeSerialize r1 with
    | error err => simp [StateUpdater.Deserialize, h1, h2] at h
    | ok v2 =>
      obtain ⟨pubkey, r2⟩ := v2
      cases r2 with
      | nil => simp [StateUpdater.Deserialize, h1, h2, Read1] at h
      | cons action r3 =>
        cases h3 : c.ReadVarBytes r3 with
        | error err => simp [StateUpdater.Deserialize, h1, h2, Read1, h3] at h
        | ok v3 =>
          obtain ⟨cert, r4⟩ := v3
          simp only [StateUpdater.Deserialize, h1, h2, Read1, h3, Prod.mk.injEq,
            Except.ok.injEq] at h
          exact ⟨ns, r1, pubkey, action, r3, cert, rfl, h2, by rw [← h.1]; exact h3, h.2.symm⟩

/-- C19, as amended. For every input on which `Deserialize` succeeds, the decoded Action is
the byte that follows the identity in the input, whatever its value: nothing compares it
with Add and Sub, so it is Add or Sub exactly when that byte is 0 or 1. -/
theorem Deserialize_Action_is_the_byte_read (c : Collab) (self q : StateUpdater)
    (r rest : Bytes) (version : Byte)
    (h : StateUpdater.Deserialize c self r version = (Except.ok rest, q)) :
    ∃ (ns r1 : Bytes) (pubkey : crypto.PubKey) (action : Byte) (r3 : Bytes),
      c.ReadVarBytes r = Except.ok (ns, r1) ∧
      c.PubKeyDeSerialize r1 = Except.ok (pubkey, action :: r3) ∧
      q.Action = action ∧
      ((q.Action = StateUpdaterAction_ADD ∨ q.Action = StateUpdaterAction_SUB) ↔
        (action = 0 ∨ action = 1)) := by
  obtain ⟨ns, r1, pubkey, action, r3, cert, h1, h2, _, h4⟩ :=
    Deserialize_ok_fields c self q r rest version h
  subst h4
  exact ⟨ns, r1, pubkey, action, r3, h1, h2, rfl, Iff.rfl⟩

set_option maxRecDepth 100000 in
/-- C19, at a concrete input: the encoding of a payload with the action byte 2. -/
theorem Deserialize_Action_is_the_byte_read_witness :
    StateUpdater.Deserialize specCollab stale
        (actionTwo.Serialize specCollab bufferWrite StateUpdaterPayloadVersion).1
        StateUpdaterPayloadVersion = (Except.ok [], actionTwo) ∧
    ∃ (ns r1 : Bytes) (pubkey : crypto.PubKey) (action : Byte) (r3 : Bytes),
      specCollab.ReadVarBytes
          (actionTwo.Serialize specCollab bufferWrite StateUpdaterPayloadVersion).1 =
        Except.ok (ns, r1) ∧
      specCollab.PubKeyDeSerialize r1 = Except.ok (pubkey, action :: r3) ∧
      actionTwo.Action = action ∧
      ((actionTwo.Action = StateUpdaterAction_ADD ∨
          actionTwo.Action = StateUpdaterAction_SUB) ↔ (action = 0 ∨ action = 1)) :=
  ⟨by decide,
    Deserialize_Action_is_the_byte_read specCollab stale actionTwo
      (actionTwo.Serialize specCollab bufferWrite StateUpdaterPayloadVersion).1 []
      StateUpdaterPayloadVersion (by decide)⟩

set_option maxRecDepth 100000 in
/-- C19 as stated fails: the 80 bytes that encode a payload with the action byte 2 are an
input on which `Deserialize` at version 0 succeeds, and the decoded Action is 2, neither
Add (0) nor Sub (1). -/
theorem Deserialize_accepts_action_two :
    (StateUpdater.Deserialize specCollab stale
        (actionTwo.Serialize specCollab bufferWrite StateUpdaterPayloadVersion).1
        StateUpdaterPayloadVersion).1 = Except.ok [] ∧
    (StateUpdater.Deserialize specCollab stale
        (actionTwo.Serialize specCollab bufferWrite StateUpdaterPayloadVersion).1
        StateUpdaterPayloadVersion).2.Action = 2 ∧
    (2 : Byte) ≠ StateUpdaterAction_ADD ∧ (2 : Byte) ≠ StateUpdaterAction_SUB := by
  decide

end payload

/-! ## Record encoding: layout -/

namespace ChainStore

theorem Serialize_loop_flatten (c : Collab) (keys : List String)
    (h : ∀ ns ∈ keys, (c.WriteVarString ns).2 = none) :
    StateUpdater.Serialize.loop c keys =
      ((keys.map (fun ns => (c.WriteVarString ns).1)).flatten, none) := by
  induction keys with
  | nil => rfl
  | cons k t ih =>
    have hk := h k (List.mem_cons_self k t)
    have ht := ih (fun ns hns => h ns (List.mem_cons_of_mem k hns))
    simp only [StateUpdater.Serialize.loop, Written.andThen_ok _ _ _ hk, ht, List.map_cons,
      List.flatten_cons]

/-- C16. For every Record with `k` namespaces, `k` below 2^32 (the range of the count
field), whose identity, count and namespaces are written without error: `Serialize` returns
no error and writes the identity encoding, then the 32-bit count `k`, then the
length-prefixed namespaces, one after the other, in an order that lists every namespace of
the Record exactly once; the count written is the number of namespaces that follow. -/
theorem Serialize_layout (c : Collab) (p : StateUpdater)
    (hk : p.namespaces.len < 2 ^ 32)
    (hid : (c.PubKeySerialize p.PubKey).2 = none)
    (hcount : (c.WriteUint32 p.namespaces.len).2 = none)
    (hns : ∀ ns ∈ p.namespaces.keys, (c.WriteVarString ns).2 = none) :
    ∃ order : List String,
      order.Nodup ∧ order.length = p.namespaces.len ∧
      (∀ s : String, s ∈ order ↔ (p.HasNamespace s).1 = true) ∧
      p.Serialize c =
        ((c.PubKeySerialize p.PubKey).1 ++ (c.WriteUint32 p.namespaces.len).1 ++
          (order.map (fun ns => (c.WriteVarString ns).1)).flatten, none) := by
  have hmod : p.namespaces.len % 2 ^ 32 = p.namespaces.len := Nat.mod_eq_of_lt hk
  refine ⟨p.namespaces.keys, p.namespaces.nodupKeys, by simp [GoMap.keys, GoMap.len],
    fun s => ((GoMap.getL_isSome_iff s p.namespaces.entries).symm), ?_⟩
  have hcount2 : (c.WriteUint32 (p.namespaces.len % 2 ^ 32)).2 = none := by rw [hmod]; exact hcount
  rw [StateUpdater_Serialize_ok c p hid hcount2, Serialize_loop_flatten c _ hns, hmod,
    List.append_assoc]

set_option maxRecDepth 100000 in
/-- C16, at the Record of `A` of the specification's example, with "finance" and "hr": 85
bytes, 64 of the identity, 4 of the count 2, 11 and 6 of the two namespaces. -/
theorem Serialize_layout_witness :
    (NewStateUpdater keyA ["finance", "hr"]).namespaces.len = 2 ∧
    ((NewStateUpdater keyA ["finance", "hr"]).Serialize specCollab).1.length = 85 ∧
    ∃ order : List String,
      order.Nodup ∧ order.length = (NewStateUpdater keyA ["finance", "hr"]).namespaces.len ∧
      (∀ s : String,
        s ∈ order ↔ ((NewStateUpdater keyA ["finance", "hr"]).HasNamespace s).1 = true) ∧
      (NewStateUpdater keyA ["finance", "hr"]).Serialize specCollab =
        ((specCollab.PubKeySerialize (NewStateUpdater keyA ["finance", "hr"]).PubKey).1 ++
          (specCollab.WriteUint32 (NewStateUpdater keyA ["finance", "hr"]).namespaces.len).1 ++
          (order.map (fun ns => (specCollab.WriteVarString ns).1)).flatten, none) :=
  ⟨by decide, by decide,
    Serialize_layout specCollab (NewStateUpdater keyA ["finance", "hr"]) (by decide)
      (by decide) rfl (fun _ _ => rfl)⟩

end ChainStore

/-! ## The key invariant of the registry -/

namespace GoMap

variable {κ ν : Type} [DecidableEq κ]

theorem mem_setL {k : κ} {v : ν} {l : List (κ × ν)} {e : κ × ν} (h : e ∈ setL k v l) :
    e = (k, v) ∨ e ∈ l := by
  induction l with
  | nil => simpa [setL] using h
  | cons x t ih =>
    by_cases hx : x.1 = k
    · simp only [setL, if_pos hx, List.mem_cons] at h
      rcases h with h | h
      · exact Or.inl h
      · exact Or.inr (List.mem_cons_of_mem x h)
    · simp only [setL, if_neg hx, List.mem_cons] at h
      rcases h with h | h
      · exact Or.inr (by rw [h]; exact List.mem_cons_self x t)
      · rcases ih h with h2 | h2
        · exact Or.inl h2
        · exact Or.inr (List.mem_cons_of_mem x h2)

end GoMap

namespace ChainStore

/-- The key invariant is kept by `AddStateUpdater`. -/
theorem Keyed_AddStateUpdater (p : StateUpdaterMgr) (state : StateUpdater) (h : p.Keyed) :
    (p.AddStateUpdater state).Keyed := by
  intro e he
  rcases GoMap.mem_setL he with h1 | h1
  · rw [h1]; rfl
  · exact h e h1

theorem Keyed_Deserialize_loop (c : Collab) (n : Nat) :
    ∀ (r : Bytes) (p : StateUpdaterMgr), p.Keyed →
      (StateUpdaterMgr.Deserialize.loop c n r p).2.Keyed := by
  induction n with
  | zero => intro r p h; exact h
  | succ n ih =>
    intro r p h
    simp only [StateUpdaterMgr.Deserialize.loop]
    rcases hd : StateUpdater.Deserialize c StateUpdater.new r with ⟨res, state⟩
    cases res with
    | error err => exact h
    | ok r1 => exact ih r1 _ (Keyed_AddStateUpdater p state h)

/-- The key invariant holds after `StateUpdaterMgr.Deserialize`, successful or not, on a
registry that had it. -/
theorem Keyed_Deserialize (c : Collab) (p : StateUpdaterMgr) (r : Bytes) (h : p.Keyed) :
    (p.Deserialize c r).2.Keyed := by
  unfold StateUpdaterMgr.Deserialize
  cases c.ReadUint32 r with
  | error err => exact h
  | ok v =>
    obtain ⟨count, r1⟩ := v
    exact Keyed_Deserialize_loop c count r1 _ (fun e he => by cases he)

theorem Keyed_NewStateUpdaterMgr_loop (entries : List (crypto.PubKey × List String)) :
    ∀ mgr : StateUpdaterMgr, mgr.Keyed → (NewStateUpdaterMgr.loop entries mgr).Keyed := by
  induction entries with
  | nil => intro mgr h; exact h
  | cons entry rest ih =>
    intro mgr h
    obtain ⟨pubkey, namespaces⟩ := entry
    exact ih _ (Keyed_AddStateUpdater mgr (NewStateUpdater pubkey namespaces) h)

/-- The key invariant holds of every registry that `NewStateUpdaterMgr` builds. -/
theorem Keyed_NewStateUpdaterMgr (entries : List (crypto.PubKey × List String)) :
    (NewStateUpdaterMgr entries).Keyed :=
  Keyed_NewStateUpdaterMgr_loop entries { states := GoMap.empty } (fun e he => by cases he)

/-- The key invariant holds of every reachable registry. -/
theorem Keyed_of_Reachable (c : Collab) (g : StateUpdaterMgr) (h : Reachable c g) :
    g.Keyed := by
  induction h with
  | new stateUpdaters => exact Keyed_NewStateUpdaterMgr stateUpdaters
  | add p state _ ih => exact Keyed_AddStateUpdater p state ih
  | deserialize p q r rest _ hd ih =>
    have := Keyed_Deserialize c p r ih
    rw [hd] at this
    exact this

theorem getL_some_mem {k : String} {v : StateUpdater} (l : List (String × StateUpdater))
    (h : GoMap.getL k l = some v) : (k, v) ∈ l := by
  induction l with
  | nil => simp [GoMap.getL] at h
  | cons e t ih =>
    by_cases hk : e.1 = k
    · simp only [GoMap.getL, if_pos hk, Option.some.injEq] at h
      have : e = (k, v) := Prod.ext hk h
      rw [this]
      exact List.mem_cons_self _ _
    · simp only [GoMap.getL, if_neg hk] at h
      exact List.mem_cons_of_mem e (ih h)

/-- C20. In every registry reachable from `NewStateUpdaterMgr` by calls of `AddStateUpdater`
and successful calls of `StateUpdaterMgr.Deserialize`, every stored Record is stored under
the key `GetPubKeyId` of its own identity, so the Record that `GetStateUpdater(id)` returns
has an identity whose derived key is that of `id`. -/
theorem Reachable_key_invariant (c : Collab) (g : StateUpdaterMgr) (h : Reachable c g) :
    (∀ e ∈ g.states.entries, e.1 = g.GetPubKeyId e.2.PubKey) ∧
    (∀ (id : crypto.PubKey) (state : StateUpdater),
      (g.GetStateUpdater id).1 = some state →
      g.GetPubKeyId state.PubKey = g.GetPubKeyId id) := by
  have hk := Keyed_of_Reachable c g h
  refine ⟨hk, fun id state hs => ?_⟩
  have hm := getL_some_mem g.states.entries hs
  exact (hk _ hm).symm

set_option maxRecDepth 100000 in
/-- C20, at concrete registries: the one that `NewStateUpdaterMgr` builds from the
specification's example, and the one reached from it by `AddStateUpdater` of another Record
and a successful `Deserialize`. -/
theorem Reachable_key_invariant_witness :
    Reachable specCollab registryAB ∧
    ((∀ e ∈ registryAB.states.entries, e.1 = registryAB.GetPubKeyId e.2.PubKey) ∧
      (∀ (id : crypto.PubKey) (state : StateUpdater),
        (registryAB.GetStateUpdater id).1 = some state →
        registryAB.GetPubKeyId state.PubKey = registryAB.GetPubKeyId id)) ∧
    (registryAB.GetStateUpdater keyA).1 = some (NewStateUpdater keyA ["finance", "hr"]) ∧
    Reachable specCollab hrRegistry ∧
    ((∀ e ∈ hrRegistry.states.entries, e.1 = hrRegistry.GetPubKeyId e.2.PubKey) ∧
      (∀ (id : crypto.PubKey) (state : StateUpdater),
        (hrRegistry.GetStateUpdater id).1 = some state →
        hrRegistry.GetPubKeyId state.PubKey = hrRegistry.GetPubKeyId id)) :=
  have h1 : Reachable specCollab registryAB := Reachable.new _
  have h2 : Reachable specCollab hrRegistry :=
    Reachable.deserialize (registryAB.AddStateUpdater financeRecord) hrRegistry sameKeyInput []
      (Reachable.add registryAB financeRecord h1) (by decide)
  ⟨h1, Reachable_key_invariant specCollab registryAB h1, by decide, h2,
    Reachable_key_invariant specCollab hrRegistry h2⟩


end ChainStore

namespace ChainStore

set_option maxRecDepth 100000 in
/-- C11, at concrete inputs with the collaborators of the specification: the 74 bytes that
encode the Record with "hr", cut after 70 bytes, fail in the namespace and leave the
receiver, the Record with "finance", as it was; the whole 74 bytes replace it by the Record
with "hr". -/
theorem StateUpdater_Deserialize_atomic_witness :
    (StateUpdater.Deserialize specCollab financeRecord
        ((hrRecord.Serialize specCollab).1.take 70)).1 =
      Except.error (Error.Errorf "serialization.ReadVarString namespace error:%s" Error.EOF) ∧
    (StateUpdater.Deserialize specCollab financeRecord
        ((hrRecord.Serialize specCollab).1.take 70)).2 = financeRecord ∧
    StateUpdater.Deserialize specCollab financeRecord (hrRecord.Serialize specCollab).1 =
      (Except.ok [], hrRecord) :=
  ⟨by decide,
    (StateUpdater_Deserialize_atomic specCollab financeRecord
      ((hrRecord.Serialize specCollab).1.take 70)).1
      (Error.Errorf "serialization.ReadVarString namespace error:%s" Error.EOF) (by decide),
    by decide⟩

end ChainStore

/-! ## Registry round trip, for every registry the operations build -/

namespace ChainStore

theorem rebuilt_entries (state : StateUpdater) :
    state.rebuilt.namespaces.entries = state.namespaces.keys.map (fun k => (k, k)) := by
  unfold StateUpdater.rebuilt
  rw [entries_foldl_set]
  have hnd : ((([] : List (String × String)).map Prod.fst) ++
      state.namespaces.keys.map id).Nodup := by
    simpa [GoMap.keys] using state.namespaces.nodupKeys
  have := GoMap.foldl_setL_append id state.namespaces.keys [] hnd
  simp only [id, List.nil_append] at this
  exact this

theorem rebuilt_keys (state : StateUpdater) :
    state.rebuilt.namespaces.keys = state.namespaces.keys := by
  unfold GoMap.keys
  rw [rebuilt_entries, List.map_map]
  exact List.map_id _

theorem Record_round_trip_rebuilt (c : Collab) (state self : StateUpdater) (tail : Bytes)
    (hlen : state.namespaces.len < 2 ^ 32) (hc : c.RoundTripsRecord state) :
    (state.Serialize c).2 = none ∧
    StateUpdater.Deserialize c self ((state.Serialize c).1 ++ tail) =
      (Except.ok tail, state.rebuilt) := by
  obtain ⟨⟨hpw, hpr⟩, ⟨huw, hur⟩, hns⟩ := hc
  have hloop := Record_loops_round_trip c state.namespaces.keys GoMap.empty tail hns
  have hcount : state.namespaces.keys.length = state.namespaces.len := by
    simp [GoMap.keys, GoMap.len]
  rw [StateUpdater_Serialize_ok c state hpw huw]
  refine ⟨hloop.1, ?_⟩
  have hmod : state.namespaces.len % 2 ^ 32 = state.namespaces.len := Nat.mod_eq_of_lt hlen
  have hur2 := hur ((StateUpdater.Serialize.loop c state.namespaces.keys).1 ++ tail)
  rw [hmod] at hur2
  simp only [StateUpdater.Deserialize, List.append_assoc, hpr _, hmod, hur2]
  rw [← hcount, hloop.2]
  rfl

theorem Registry_loops_round_trip_rebuilt (c : Collab) (states : List StateUpdater) :
    ∀ (p : StateUpdaterMgr) (tail : Bytes),
      (∀ state ∈ states, state.namespaces.len < 2 ^ 32 ∧ c.RoundTripsRecord state) →
      (StateUpdaterMgr.Serialize.loop c states).2 = none ∧
      StateUpdaterMgr.Deserialize.loop c states.length
          ((StateUpdaterMgr.Serialize.loop c states).1 ++ tail) p =
        (Except.ok tail,
          (states.map StateUpdater.rebuilt).foldl StateUpdaterMgr.AddStateUpdater p) := by
  induction states with
  | nil => intro p tail _; exact ⟨rfl, rfl⟩
  | cons state rest ih =>
    intro p tail h
    obtain ⟨h1, h2⟩ := h state (List.mem_cons_self state rest)
    have ht := ih (p.AddStateUpdater state.rebuilt) tail
      (fun st hst => h st (List.mem_cons_of_mem state hst))
    have hrec := Record_round_trip_rebuilt c state StateUpdater.new
      ((StateUpdaterMgr.Serialize.loop c rest).1 ++ tail) h1 h2
    simp only [StateUpdaterMgr.Serialize.loop, Written.andThen_ok _ _ _ hrec.1,
      List.length_cons, StateUpdaterMgr.Deserialize.loop, List.append_assoc, hrec.2,
      List.map_cons, List.foldl_cons]
    exact ⟨ht.1, ht.2⟩

theorem pairs_foldl_rebuilt (g : StateUpdaterMgr) (hkeyed : g.Keyed) :
    ((g.states.values.map StateUpdater.rebuilt).foldl StateUpdaterMgr.AddStateUpdater
      { states := GoMap.empty }).pairs = g.pairs := by
  have hk : (g.states.values.map StateUpdater.rebuilt).map
      (fun state => g.GetPubKeyId state.PubKey) = g.states.entries.map Prod.fst := by
    conv_rhs => rw [Keyed_entries g hkeyed]
    rw [List.map_map, List.map_map]
    rfl
  have hnd : ((([] : List (String × StateUpdater)).map Prod.fst) ++
      (g.states.values.map StateUpdater.rebuilt).map
        (fun state => g.GetPubKeyId state.PubKey)).Nodup := by
    rw [hk]; simpa using g.states.nodupKeys
  have he := entries_foldl_AddStateUpdater g (g.states.values.map StateUpdater.rebuilt)
    { states := GoMap.empty }
  have hf := GoMap.foldl_setL_append (fun state : StateUpdater => g.GetPubKeyId state.PubKey)
    (g.states.values.map StateUpdater.rebuilt) [] hnd
  simp only [List.nil_append] at hf
  have he2 : ((g.states.values.map StateUpdater.rebuilt).foldl StateUpdaterMgr.AddStateUpdater
      { states := GoMap.empty }).states.entries =
      (g.states.values.map StateUpdater.rebuilt).map
        (fun state => (g.GetPubKeyId state.PubKey, state)) := by
    rw [he]; exact hf
  have hvals : ((g.states.values.map StateUpdater.rebuilt).foldl
      StateUpdaterMgr.AddStateUpdater { states := GoMap.empty }).states.values =
      g.states.values.map StateUpdater.rebuilt := by
    show List.map Prod.snd _ = _
    rw [he2, List.map_map]
    exact List.map_id _
  show List.map _ _ = List.map _ g.states.values
  rw [hvals, List.map_map]
  apply List.map_congr_left
  intro state _
  show ((state.rebuilt).PubKey, (state.rebuilt).namespaces.keys) =
    (state.PubKey, state.namespaces.keys)
  rw [rebuilt_keys]
  rfl

/-- C1. For every registry reachable from `NewStateUpdaterMgr` by `AddStateUpdater` and
successful `Deserialize` calls (which are all the registries whose Records sit under the
keys of their own identities), with fewer than 2^32 Records of fewer than 2^32 namespaces
each, on which the codecs round-trip: `Serialize` succeeds, and `Deserialize` of the bytes
it wrote, whatever follows them and whatever the receiver held, succeeds, leaves what
follows, and yields a registry with the same (identity, namespaces) pairs as the original. -/
theorem Registry_round_trip_pairs (c : Collab) (g p : StateUpdaterMgr) (tail : Bytes)
    (hreach : Reachable c g) (hlen : g.states.len < 2 ^ 32)
    (hcw : (c.WriteUint32 (g.states.len % 2 ^ 32)).2 = none)
    (hcr : c.ReadsBackUint32 (g.states.len % 2 ^ 32))
    (hrec : ∀ state ∈ g.states.values, state.namespaces.len < 2 ^ 32 ∧
      c.RoundTripsRecord state) :
    (g.Serialize c).2 = none ∧
    (p.Deserialize c ((g.Serialize c).1 ++ tail)).1 = Except.ok tail ∧
    (p.Deserialize c ((g.Serialize c).1 ++ tail)).2.pairs = g.pairs := by
  have hkeyed := Keyed_of_Reachable c g hreach
  have hloop := Registry_loops_round_trip_rebuilt c g.states.values { states := GoMap.empty }
    tail hrec
  have hcount : g.states.values.length = g.states.len := by
    simp [GoMap.values, GoMap.len]
  have hmod : g.states.len % 2 ^ 32 = g.states.len := Nat.mod_eq_of_lt hlen
  rw [hmod] at hcw hcr
  have hser : g.Serialize c =
      ((c.WriteUint32 g.states.len).1 ++ (StateUpdaterMgr.Serialize.loop c g.states.values).1,
       (StateUpdaterMgr.Serialize.loop c g.states.values).2) := by
    simp only [StateUpdaterMgr.Serialize, hmod, Written.andThen_ok _ _ _ hcw]
  have hd : p.Deserialize c ((g.Serialize c).1 ++ tail) =
      (Except.ok tail,
        (g.states.values.map StateUpdater.rebuilt).foldl StateUpdaterMgr.AddStateUpdater
          { states := GoMap.empty }) := by
    rw [hser]
    simp only [StateUpdaterMgr.Deserialize, List.append_assoc, hcr _]
    rw [← hcount, hloop.2]
  refine ⟨by rw [hser]; exact hloop.1, by rw [hd], ?_⟩
  rw [hd]
  exact pairs_foldl_rebuilt g hkeyed

/-- Every registry whose Records sit under the keys of their own identities is reachable:
it is built from the empty `NewStateUpdaterMgr` by `AddStateUpdater` of its Records. -/
theorem Reachable_of_Keyed (c : Collab) (g : StateUpdaterMgr) (hkeyed : g.Keyed) :
    Reachable c g := by
  have hfold : ∀ (states : List StateUpdater) (p : StateUpdaterMgr), Reachable c p →
      Reachable c (states.foldl StateUpdaterMgr.AddStateUpdater p) := by
    intro states
    induction states with
    | nil => intro p hp; exact hp
    | cons state rest ih => intro p hp; exact ih _ (Reachable.add p state hp)
  have hg : g.states.values.foldl StateUpdaterMgr.AddStateUpdater
      (NewStateUpdaterMgr []) = g := by
    have he : (g.states.values.foldl StateUpdaterMgr.AddStateUpdater
        (NewStateUpdaterMgr [])).states = g.states := by
      apply GoMap.ext_entries
      rw [entries_foldl_AddStateUpdater g]
      have hk : g.states.values.map (fun state => g.GetPubKeyId state.PubKey) =
          g.states.entries.map Prod.fst := by
        conv_rhs => rw [Keyed_entries g hkeyed]
        rw [List.map_map]; rfl
      have hnd : ((([] : List (String × StateUpdater)).map Prod.fst) ++
          g.states.values.map (fun state => g.GetPubKeyId state.PubKey)).Nodup := by
        rw [hk]; simpa using g.states.nodupKeys
      have := GoMap.foldl_setL_append (fun state : StateUpdater => g.GetPubKeyId state.PubKey)
        g.states.values [] hnd
      simp only [List.nil_append] at this
      show List.foldl (fun l state => GoMap.setL (g.GetPubKeyId state.PubKey) state l) []
        g.states.values = _
      rw [this, ← Keyed_entries g hkeyed]
    cases hq : g.states.values.foldl StateUpdaterMgr.AddStateUpdater (NewStateUpdaterMgr [])
    rw [hq] at he
    cases g
    simp only at he
    rw [he]
  rw [← hg]
  exact hfold g.states.values (NewStateUpdaterMgr []) (Reachable.new [])

set_option maxRecDepth 100000 in
theorem registryAB_records :
    ∀ state ∈ registryAB.states.values, state.namespaces.len < 2 ^ 32 ∧
      specCollab.RoundTripsRecord state := by
  intro state h
  have hv : registryAB.states.values = registryAdded.states.values := by decide
  rw [hv] at h
  exact ⟨(registryAdded_records state h).1, (registryAdded_records state h).2.1⟩

set_option maxRecDepth 100000 in
/-- C1, at the registry that `NewStateUpdaterMgr` builds from the specification's example
`{A: ["finance","hr"], B: []}`, read into a registry with other content, with one byte after
the encoding: the decoded registry holds `A` with "finance" and "hr" and `B` without
namespaces. -/
theorem Registry_round_trip_pairs_witness :
    Reachable specCollab registryAB ∧
    registryAB.pairs = [(keyA, ["finance", "hr"]), (keyB, [])] ∧
    (registryAB.Serialize specCollab).2 = none ∧
    (priorRegistry.Deserialize specCollab ((registryAB.Serialize specCollab).1 ++ [7])).1 =
      Except.ok [7] ∧
    (priorRegistry.Deserialize specCollab ((registryAB.Serialize specCollab).1 ++ [7])).2.pairs =
      registryAB.pairs :=
  have h := Registry_round_trip_pairs specCollab registryAB priorRegistry [7]
    (Reachable.new _) (by decide) rfl (specCollab_ReadsBackUint32 _ (by decide))
    registryAB_records
  ⟨Reachable.new _, by decide, h.1, h.2.1, h.2.2⟩

end ChainStore
